import Mathlib

/-!
# plumbops: the incremental build pipeline

A shallow embedding of `buildCmd` (src/cmd/plumbops/main.go; the `main` of
src/cmd/build/main.go is the same code with `os.Exit(1)` in place of the
returned errors) and of `slugify`, followed by theorems about them.

Modelling conventions.

* Strings are Lean strings (sequences of Unicode scalar values); `range s`
  over a Go string is the list of its runes.
* `fmt.Sprintf("%d", i)` for a slice index `i` is `toString (i : Nat)`.
* The outcome of every call that leaves the program (file system, YAML and
  JSON libraries, toolchain, clock, SHA-256) is an input: either a field of
  `Env` or a part of the `World` the run starts in.
* The state that persists is the manifest file and the files the run opens
  as artifacts, by path as the run names them (`filepath.Join` with its
  cleaning is `joinPath`). The toolchain runs in the per-task directory, so
  its output lands at binPath only when binPath is absolute (`outputPath`).
  The per-task directory and the two unit files appear as calls with an
  outcome only, and the manifest file is kept apart from the artifacts: its
  path is not the path of an artifact unless the arch of the target has
  path separators in it.
* The flags are taken as already parsed (`Flags`).
* A run records the calls it makes, in order, in a trace (`Action`).
-/

namespace Plumbops

/-! ## Data model -/

/-- Task represents a single playbook task (`Params` is carried, never inspected). -/
structure Task where
  Name : String
  Module : String
  Params : List (String × String)
deriving DecidableEq, Repr

/-- The record `manifestEntry`: metadata about a built task binary. -/
structure manifestEntry where
  Sha256 : String
  Source : String
  Module : String
  BuiltAt : String
deriving DecidableEq, Repr

/-- The entries of a non-nil `map[string]manifestEntry`, as an association
list with at most the first binding of a key visible. -/
abbrev Manifest := List (String × manifestEntry)

/-- Reading `m[k]` in a non-nil map. -/
def Manifest.get : Manifest → String → Option manifestEntry
  | [], _ => none
  | (k1, e) :: rest, k => if k1 = k then some e else Manifest.get rest k

/-- The assignment `m[k] = e` in a non-nil map: overwrite in place or add. -/
def Manifest.set : Manifest → String → manifestEntry → Manifest
  | [], k, e => [(k, e)]
  | (k1, e1) :: rest, k, e =>
    if k1 = k then (k, e) :: rest else (k1, e1) :: Manifest.set rest k e

/-- A Go value of type `map[string]manifestEntry`: `none` is the nil map. -/
abbrev GoMap := Option Manifest

/-- The two-result read `entry, ok := manifest[k]`; a nil map has no key. -/
def GoMap.lookup (m : GoMap) (k : String) : Option manifestEntry :=
  match m with
  | none => none
  | some l => l.get k

/-- The assignment `manifest[k] = e`; `none` is the run-time panic
"assignment to entry in nil map". -/
def GoMap.assign (m : GoMap) (k : String) (e : manifestEntry) : Option GoMap :=
  match m with
  | none => none
  | some l => some (some (l.set k e))

/-- File content. -/
abbrev Bytes := List Nat

/-- What `os.Open` followed by `io.Copy(h, f)` observes at a path.
`unopenable`: `os.Open` returns an error (missing file, no permission).
`file content readErr`: the file opens; `io.Copy` streams the whole `content`
and returns no error when `readErr = none`, and streams `content.take n` and
then returns an error when `readErr = some n`. -/
inductive File where
  | unopenable
  | file (content : Bytes) (readErr : Option Nat)
deriving DecidableEq, Repr

/-- The bytes `io.Copy` has written into the hash when it returns. -/
def File.streamed (content : Bytes) : Option Nat → Bytes
  | none => content
  | some n => content.take n

/-- The artifacts on disk, by path. -/
abbrev FS := String → File

/-- The state of `build-manifest.json` as `buildCmd` observes it.
`unopenable`: `os.Open` fails. `holds m err`: the file opens, and
`json.NewDecoder(f).Decode(&manifest)`, started on the empty map, leaves the
variable equal to `m` and returns an error iff `err`. The decoder is library
code; among its documented behaviours are
`holds (some []) true` for truncated or syntactically invalid JSON (nothing is
stored), `holds (some es) true` for a well-formed JSON object with a value of
the wrong type somewhere (the decoder "completes the unmarshaling as best it
can" and reports the first mismatch), and `holds none false` for the
document `null` (a JSON null sets a map to nil). -/
inductive ManifestFile where
  | unopenable
  | holds (m : GoMap) (err : Bool)
deriving DecidableEq, Repr

/-- What persists from one run to the next. -/
structure World where
  manifestFile : ManifestFile
  fs : FS

/-- The parsed flags of the `build` command. -/
structure Flags where
  playbookPath : String
  outDir : String
  target : String
  force : Bool
deriving DecidableEq, Repr

/-- Outcomes of the calls made while one task is processed. -/
structure TaskCalls where
  /-- The call `os.MkdirAll(dir, 0o755)` returns an error. -/
  mkdirErr : Bool
  /-- The call `os.WriteFile(dir/params.json, ...)` returns an error. -/
  writeParamsErr : Bool
  /-- The call `os.WriteFile(dir/main.go, ...)` returns an error. -/
  writeMainErr : Bool
  /-- The toolchain: `none` when `cmd.Run()` returns an error (no file is
  touched then), `some f` when it returns nil and leaves `f` where `-o` points
  from its working directory (`outputPath`). -/
  goBuild : Option File
  /-- The value of `time.Now().Format(time.RFC3339)`. -/
  now : String
deriving DecidableEq, Repr

/-- Everything a run takes from outside. -/
structure Env where
  /-- The lowercase hex encoding of the SHA-256 digest:
  `hex.EncodeToString(h.Sum(nil))` after the bytes were written to `h`. -/
  sha256hex : Bytes → String
  /-- The constant `runtime.GOARCH`. -/
  GOARCH : String
  /-- The call `os.ReadFile(playbookPath)`: `none` is an error. -/
  readFile : String → Option String
  /-- The call `yaml.Unmarshal(pbData, &pb)`: `none` is an error, `some ts` leaves `ts` in `pb.Tasks`. -/
  yamlUnmarshal : String → Option (List Task)
  /-- The call `os.MkdirAll(outDir, 0o755)` returns an error. -/
  mkdirOutErr : Bool
  /-- Per-task outcomes, by position in the playbook. -/
  calls : Nat → TaskCalls
  /-- The call `os.Create(manifestPath)` returns an error. -/
  createErr : Bool
  /-- The call `enc.Encode(manifest)` returns an error. -/
  encodeErr : Bool

/-! ## slugify -/

/-- The function `unicode.ToLower`, which `strings.ToLower` applies rune by
rune. The two runes outside ASCII whose lower case is inside ASCII are
listed (KELVIN SIGN and LATIN CAPITAL LETTER I WITH DOT ABOVE); every other
rune outside ASCII has its lower case outside ASCII and is left as it is,
which `slugify` cannot tell apart: both are outside `[a-z0-9_]`. -/
def toLowerRune (r : Char) : Char :=
  if 65 ≤ r.toNat ∧ r.toNat ≤ 90 then Char.ofNat (r.toNat + 32)
  else if r.toNat = 0x212A then Char.ofNat 107
  else if r.toNat = 0x130 then Char.ofNat 105
  else r

/-- The test `(r >= 'a' && r <= 'z') || (r >= '0' && r <= '9') || r == '_'`. -/
def isSlugRune (r : Char) : Bool :=
  (decide (97 ≤ r.toNat) && decide (r.toNat ≤ 122))
    || (decide (48 ≤ r.toNat) && decide (r.toNat ≤ 57))
    || decide (r.toNat = 95)

/-- The loop of `slugify` over the runes of the lowercased string; the
result is what the loop appends to the builder from here on. -/
def slugLoop : Bool → List Char → List Char
  | _, [] => []
  | prevDash, r :: rs =>
    if isSlugRune r then r :: slugLoop false rs
    else if !prevDash then Char.ofNat 45 :: slugLoop true rs
    else slugLoop true rs

/-- The call `strings.Trim(res, "-")`. -/
def trimDash (l : List Char) : List Char :=
  (l.dropWhile (fun c => c = Char.ofNat 45)).rdropWhile (fun c => c = Char.ofNat 45)

/-- The function `slugify` on lists of runes. -/
def slugifyRunes (s : List Char) : List Char :=
  trimDash (slugLoop false (s.map toLowerRune))

/-- The function `slugify`. -/
def slugify (s : String) : String := String.mk (slugifyRunes s.data)

/-! ## buildCmd -/

/-- The elements of a path between its separators. -/
def splitSlash : List Char → List (List Char)
  | [] => [[]]
  | c :: cs =>
    if c = Char.ofNat 47 then [] :: splitSlash cs
    else
      match splitSlash cs with
      | [] => [[c]]
      | e :: es => (c :: e) :: es

/-- The loop of `filepath.Clean` over the elements of a path; `out` holds
the elements kept so far, the last one first. Empty elements and `.` are
dropped; `..` removes the element before it, is dropped at the root, and is
kept at the start of a path that is not rooted. -/
def cleanElems (rooted : Bool) : List (List Char) → List (List Char) → List (List Char)
  | out, [] => out.reverse
  | out, e :: es =>
    if e = [] ∨ e = [Char.ofNat 46] then cleanElems rooted out es
    else if e = [Char.ofNat 46, Char.ofNat 46] then
      match out with
      | [] => if rooted then cleanElems rooted [] es else cleanElems rooted [e] es
      | top :: rest =>
        if top = [Char.ofNat 46, Char.ofNat 46] then cleanElems rooted (e :: out) es
        else cleanElems rooted rest es
    else cleanElems rooted (e :: out) es

/-- The test `filepath.IsAbs` (Unix): the path starts with a separator. -/
def isAbs (p : String) : Bool := decide (p.data.head? = some (Char.ofNat 47))

/-- The function `filepath.Clean` (Unix). -/
def cleanPath (p : String) : String :=
  if p.data = [] then "."
  else
    let body := String.mk
      (List.intercalate [Char.ofNat 47] (cleanElems (isAbs p) [] (splitSlash p.data)))
    if isAbs p then "/" ++ body else if body.data = [] then "." else body

/-- The call `filepath.Join(dir, name)`: the non-empty elements joined by a
separator, then cleaned. -/
def joinPath (dir name : String) : String :=
  if dir.data = [] then (if name.data = [] then "" else cleanPath name)
  else cleanPath (dir ++ "/" ++ name)

/-- Where the toolchain, run with `cmd.Dir = dir` and `-o binPath`, puts its
output: at `binPath` when that is absolute, else at `binPath` taken from
`dir`. -/
def outputPath (dir binPath : String) : String :=
  if isAbs binPath then binPath else joinPath dir binPath

/-- The lines `parts := strings.SplitN(*target, "/", 2)` to `goarch = parts[1]`:
the pair (goos, goarch). -/
def splitTarget (GOARCH target : String) : String × String :=
  match target.data.span (fun c => c != Char.ofNat 47) with
  | (a, []) => (String.mk a, GOARCH)
  | (a, _ :: b) => (String.mk a, String.mk b)

/-- The value `slugify(fmt.Sprintf("%d-%s-%s", i, t.Module, t.Name))`. -/
def taskID (i : Nat) (t : Task) : String :=
  slugify (toString i ++ "-" ++ t.Module ++ "-" ++ t.Name)

/-- The value `fmt.Sprintf("%s-%s-%s", taskID, goos, goarch)`. -/
def cacheKey (id goos goarch : String) : String :=
  id ++ "-" ++ goos ++ "-" ++ goarch

/-- The value `taskKey` of task `t` at position `i`. -/
def taskKey (goos goarch : String) (i : Nat) (t : Task) : String :=
  cacheKey (taskID i t) goos goarch

/-- The calls a run makes, in order. -/
inductive Action where
  | readFile (path : String)
  | yamlUnmarshal
  | mkdirAll (path : String)
  | openFile (path : String)
  | decodeManifest
  | writeFile (path : String)
  | goBuild (dir binPath goos goarch : String)
  | createFile (path : String)
  | encodeManifest
  | stdout (line : String)
  | stderr (line : String)
deriving DecidableEq, Repr

/-- How the body of the loop ends for one task. -/
inductive Outcome where
  /-- "Skipping ... (unchanged)", then `continue`. -/
  | skipped
  /-- The per-task `os.MkdirAll` failed, then `continue`. -/
  | mkdirFailed
  /-- The toolchain `cmd.Run()` failed, then `continue`. -/
  | buildFailed
  /-- The built binary could not be opened, then `continue`. -/
  | openFailed
  /-- The manifest entry was written and "Built ..." printed. -/
  | built
  /-- The assignment `manifest[taskKey] = ...` hit a nil map. -/
  | panicked
deriving DecidableEq, Repr

/-- The state the loop carries. -/
structure LoopState where
  manifest : GoMap
  fs : FS
  trace : List Action

/-- The cache check, lines 100-114: `true` when the body reaches the
`continue` after "Skipping". -/
def cacheHit (sha256hex : Bytes → String) (force : Bool) (manifest : GoMap) (fs : FS)
    (key binPath : String) : Bool :=
  match manifest.lookup key with
  | none => false
  | some entry =>
    if force then false
    else
      match fs binPath with
      | File.unopenable => false
      | File.file content readErr =>
        match readErr with
        | some _ => false
        | none => decide (sha256hex content = entry.Sha256)

/-- The calls of the cache check. -/
def cacheTrace (force : Bool) (manifest : GoMap) (key binPath : String) : List Action :=
  match manifest.lookup key with
  | none => []
  | some _ => if force then [] else [Action.openFile binPath]

/-- One pass through the body of the loop, lines 97-171. -/
def processTask (env : Env) (fl : Flags) (goos goarch : String) (i : Nat) (t : Task)
    (s : LoopState) : LoopState × Outcome :=
  let id := taskID i t
  let key := cacheKey id goos goarch
  let binPath := joinPath fl.outDir key
  let tr0 := s.trace ++ cacheTrace fl.force s.manifest key binPath
  if cacheHit env.sha256hex fl.force s.manifest s.fs key binPath then
    ({ s with trace := tr0 ++ [Action.stdout ("Skipping " ++ key ++ " (unchanged)")] },
      Outcome.skipped)
  else
    let dir := joinPath fl.outDir id
    let c := env.calls i
    let tr1 := tr0 ++ [Action.mkdirAll dir]
    if c.mkdirErr then
      ({ s with trace := tr1 ++ [Action.stderr ("mkdir " ++ dir)] }, Outcome.mkdirFailed)
    else
      let tr2 := tr1 ++ [Action.writeFile (joinPath dir "params.json"),
        Action.writeFile (joinPath dir "main.go"), Action.goBuild dir binPath goos goarch]
      match c.goBuild with
      | none => ({ s with trace := tr2 ++ [Action.stderr ("build " ++ key)] }, Outcome.buildFailed)
      | some f =>
        let fs1 : FS := fun p => if p = outputPath dir binPath then f else s.fs p
        let tr3 := tr2 ++ [Action.openFile binPath]
        match fs1 binPath with
        | File.unopenable =>
          ({ manifest := s.manifest, fs := fs1, trace := tr3 ++ [Action.stderr "open built binary"] },
            Outcome.openFailed)
        | File.file content readErr =>
          let sha := env.sha256hex (File.streamed content readErr)
          let entry : manifestEntry :=
            { Sha256 := sha, Source := fl.playbookPath, Module := t.Module, BuiltAt := c.now }
          match s.manifest.assign key entry with
          | none => ({ manifest := s.manifest, fs := fs1, trace := tr3 }, Outcome.panicked)
          | some m1 =>
            ({ manifest := m1, fs := fs1, trace := tr3 ++ [Action.stdout ("Built " ++ key)] },
              Outcome.built)

/-- The loop `for i, t := range pb.Tasks`, from position `i` on; a panic ends it. -/
def runTasks (env : Env) (fl : Flags) (goos goarch : String) :
    Nat → List Task → LoopState → LoopState × List Outcome
  | _, [], s => (s, [])
  | i, t :: ts, s =>
    let r := processTask env fl goos goarch i t s
    if r.2 = Outcome.panicked then (r.1, [Outcome.panicked])
    else
      let rest := runTasks env fl goos goarch (i + 1) ts r.1
      (rest.1, r.2 :: rest.2)

/-- How `buildCmd` ends. -/
inductive Result where
  /-- The function returns nil. -/
  | ok
  /-- The function returns an error whose message starts with `msg`. -/
  | error (msg : String)
  /-- The goroutine panics. -/
  | panic
deriving DecidableEq, Repr

/-- What a run leaves behind and what it did. -/
structure Run where
  result : Result
  world : World
  /-- The in-memory manifest when the function ends (the empty map when it
  ends before line 90 declares the variable). -/
  manifest : GoMap
  trace : List Action
  outcomes : List Outcome

/-- The lines 89-94: the manifest the loop starts with. -/
def loadManifest : ManifestFile → GoMap
  | ManifestFile.unopenable => some []
  | ManifestFile.holds m _ => m

/-- The calls of the lines 89-94. -/
def loadTrace (manifestPath : String) : ManifestFile → List Action
  | ManifestFile.unopenable => [Action.openFile manifestPath]
  | ManifestFile.holds _ _ => [Action.openFile manifestPath, Action.decodeManifest]

/-- The lines 174-184, reached unless the loop panicked: create the manifest
file and encode the manifest into it. A failed `os.Create` leaves the file
as it was; a failed `Encode` leaves a created, incomplete file. -/
def finishRun (env : Env) (manifestPath : String) (w : World)
    (r : LoopState × List Outcome) : Run :=
  if Outcome.panicked ∈ r.2 then
    { result := Result.panic, world := { manifestFile := w.manifestFile, fs := r.1.fs },
      manifest := r.1.manifest, trace := r.1.trace, outcomes := r.2 }
  else if env.createErr then
    { result := Result.error "write manifest",
      world := { manifestFile := w.manifestFile, fs := r.1.fs },
      manifest := r.1.manifest, trace := r.1.trace ++ [Action.createFile manifestPath],
      outcomes := r.2 }
  else if env.encodeErr then
    { result := Result.error "encode manifest",
      world := { manifestFile := ManifestFile.holds (some []) true, fs := r.1.fs },
      manifest := r.1.manifest,
      trace := r.1.trace ++ [Action.createFile manifestPath] ++ [Action.encodeManifest],
      outcomes := r.2 }
  else
    { result := Result.ok,
      world := { manifestFile := ManifestFile.holds r.1.manifest false, fs := r.1.fs },
      manifest := r.1.manifest,
      trace := r.1.trace ++ [Action.createFile manifestPath] ++ [Action.encodeManifest],
      outcomes := r.2 }

/-- The trace when the loop starts. -/
def startTrace (fl : Flags) (mf : ManifestFile) : List Action :=
  [Action.readFile fl.playbookPath] ++ [Action.yamlUnmarshal] ++ [Action.mkdirAll fl.outDir]
    ++ loadTrace (joinPath fl.outDir "build-manifest.json") mf

/-- The function `buildCmd`, after flag parsing. -/
def buildCmd (env : Env) (fl : Flags) (w : World) : Run :=
  match env.readFile fl.playbookPath with
  | none =>
    { result := Result.error "failed to read playbook", world := w, manifest := some [],
      trace := [Action.readFile fl.playbookPath], outcomes := [] }
  | some pbData =>
    match env.yamlUnmarshal pbData with
    | none =>
      { result := Result.error "failed to parse playbook", world := w, manifest := some [],
        trace := [Action.readFile fl.playbookPath] ++ [Action.yamlUnmarshal], outcomes := [] }
    | some tasks =>
      let goos := (splitTarget env.GOARCH fl.target).1
      let goarch := (splitTarget env.GOARCH fl.target).2
      if env.mkdirOutErr then
        { result := Result.error "failed to create out dir", world := w, manifest := some [],
          trace := [Action.readFile fl.playbookPath] ++ [Action.yamlUnmarshal]
            ++ [Action.mkdirAll fl.outDir],
          outcomes := [] }
      else
        finishRun env (joinPath fl.outDir "build-manifest.json") w
          (runTasks env fl goos goarch 0 tasks
            { manifest := loadManifest w.manifestFile, fs := w.fs,
              trace := startTrace fl w.manifestFile })

/-- The tasks the loop of `buildCmd` ranges over, when the playbook is read and parsed. -/
def playbookTasks (env : Env) (fl : Flags) : Option (List Task) :=
  match env.readFile fl.playbookPath with
  | none => none
  | some pbData => env.yamlUnmarshal pbData

/-- The cache keys of the tasks `ts`, the first of them at position `i`. -/
def keysFrom (goos goarch : String) : Nat → List Task → List String
  | _, [] => []
  | i, t :: ts => taskKey goos goarch i t :: keysFrom goos goarch (i + 1) ts

/-- The number of toolchain invocations in a trace. -/
def toolchainCalls : List Action → Nat
  | [] => 0
  | Action.goBuild _ _ _ _ :: rest => toolchainCalls rest + 1
  | _ :: rest => toolchainCalls rest

/-! ## Definitions used in the statements -/

/-- The condition of the spec for a task to be skipped: the force flag is not
set, the manifest has an entry under the key, the artifact opens, reading it
completes without error, and the hex digest of its full content is the
recorded one. -/
def Fresh (sha256hex : Bytes → String) (force : Bool) (manifest : GoMap) (fs : FS)
    (key binPath : String) : Prop :=
  force = false ∧ ∃ entry, manifest.lookup key = some entry ∧
    ∃ content, fs binPath = File.file content none ∧ sha256hex content = entry.Sha256

/-- The calls that generate a build unit or run the toolchain. -/
def Action.isBuildWork : Action → Bool
  | Action.mkdirAll _ => true
  | Action.writeFile _ => true
  | Action.goBuild _ _ _ _ => true
  | _ => false

/-- The trace after the cache check of a task. -/
def checkedTrace (fl : Flags) (goos goarch : String) (i : Nat) (t : Task) (s : LoopState) :
    List Action :=
  s.trace ++ cacheTrace fl.force s.manifest (taskKey goos goarch i t)
    (joinPath fl.outDir (taskKey goos goarch i t))

/-- The trace once the toolchain has been called for a task. -/
def toolchainTrace (fl : Flags) (goos goarch : String) (i : Nat) (t : Task) (s : LoopState) :
    List Action :=
  checkedTrace fl goos goarch i t s ++ [Action.mkdirAll (joinPath fl.outDir (taskID i t))]
    ++ [Action.writeFile (joinPath (joinPath fl.outDir (taskID i t)) "params.json"),
        Action.writeFile (joinPath (joinPath fl.outDir (taskID i t)) "main.go"),
        Action.goBuild (joinPath fl.outDir (taskID i t))
          (joinPath fl.outDir (taskKey goos goarch i t)) goos goarch]

/-- The files after the toolchain has left `f` as its output for a task. -/
def fsAfterBuild (fl : Flags) (goos goarch : String) (i : Nat) (t : Task) (s : LoopState)
    (f : File) : FS :=
  fun p => if p = outputPath (joinPath fl.outDir (taskID i t))
      (joinPath fl.outDir (taskKey goos goarch i t)) then f else s.fs p

/-- The entry line 165 writes for a task when the file opened at line 155 is
`file content readErr`. -/
def newEntry (env : Env) (fl : Flags) (i : Nat) (t : Task) (content : Bytes)
    (readErr : Option Nat) : manifestEntry :=
  { Sha256 := env.sha256hex (File.streamed content readErr), Source := fl.playbookPath,
    Module := t.Module, BuiltAt := (env.calls i).now }

/-- The six ways through the body of the loop. -/
inductive StepCase (env : Env) (fl : Flags) (goos goarch : String) (i : Nat) (t : Task)
    (s : LoopState) : LoopState × Outcome → Prop where
  | hit (hc : cacheHit env.sha256hex fl.force s.manifest s.fs (taskKey goos goarch i t)
        (joinPath fl.outDir (taskKey goos goarch i t)) = true) :
      StepCase env fl goos goarch i t s
        (LoopState.mk s.manifest s.fs (checkedTrace fl goos goarch i t s
          ++ [Action.stdout ("Skipping " ++ taskKey goos goarch i t ++ " (unchanged)")]),
        Outcome.skipped)
  | mkdirErr (hc : cacheHit env.sha256hex fl.force s.manifest s.fs (taskKey goos goarch i t)
        (joinPath fl.outDir (taskKey goos goarch i t)) = false)
      (hm : (env.calls i).mkdirErr = true) :
      StepCase env fl goos goarch i t s
        (LoopState.mk s.manifest s.fs (checkedTrace fl goos goarch i t s
          ++ [Action.mkdirAll (joinPath fl.outDir (taskID i t))]
          ++ [Action.stderr ("mkdir " ++ joinPath fl.outDir (taskID i t))]),
        Outcome.mkdirFailed)
  | buildErr (hc : cacheHit env.sha256hex fl.force s.manifest s.fs (taskKey goos goarch i t)
        (joinPath fl.outDir (taskKey goos goarch i t)) = false)
      (hm : (env.calls i).mkdirErr = false) (hb : (env.calls i).goBuild = none) :
      StepCase env fl goos goarch i t s
        (LoopState.mk s.manifest s.fs (toolchainTrace fl goos goarch i t s
          ++ [Action.stderr ("build " ++ taskKey goos goarch i t)]),
        Outcome.buildFailed)
  | openErr (f : File)
      (hc : cacheHit env.sha256hex fl.force s.manifest s.fs (taskKey goos goarch i t)
        (joinPath fl.outDir (taskKey goos goarch i t)) = false)
      (hm : (env.calls i).mkdirErr = false)
      (hb : (env.calls i).goBuild = some f)
      (hf : fsAfterBuild fl goos goarch i t s f (joinPath fl.outDir (taskKey goos goarch i t))
        = File.unopenable) :
      StepCase env fl goos goarch i t s
        (LoopState.mk s.manifest (fsAfterBuild fl goos goarch i t s f)
          (toolchainTrace fl goos goarch i t s
            ++ [Action.openFile (joinPath fl.outDir (taskKey goos goarch i t))]
            ++ [Action.stderr "open built binary"]),
        Outcome.openFailed)
  | panic (f : File) (content : Bytes) (readErr : Option Nat)
      (hc : cacheHit env.sha256hex fl.force s.manifest s.fs (taskKey goos goarch i t)
        (joinPath fl.outDir (taskKey goos goarch i t)) = false)
      (hm : (env.calls i).mkdirErr = false)
      (hb : (env.calls i).goBuild = some f)
      (hf : fsAfterBuild fl goos goarch i t s f (joinPath fl.outDir (taskKey goos goarch i t))
        = File.file content readErr)
      (ha : s.manifest.assign (taskKey goos goarch i t)
        (newEntry env fl i t content readErr) = none) :
      StepCase env fl goos goarch i t s
        (LoopState.mk s.manifest (fsAfterBuild fl goos goarch i t s f)
          (toolchainTrace fl goos goarch i t s
            ++ [Action.openFile (joinPath fl.outDir (taskKey goos goarch i t))]),
        Outcome.panicked)
  | built (f : File) (content : Bytes) (readErr : Option Nat) (m1 : GoMap)
      (hc : cacheHit env.sha256hex fl.force s.manifest s.fs (taskKey goos goarch i t)
        (joinPath fl.outDir (taskKey goos goarch i t)) = false)
      (hm : (env.calls i).mkdirErr = false)
      (hb : (env.calls i).goBuild = some f)
      (hf : fsAfterBuild fl goos goarch i t s f (joinPath fl.outDir (taskKey goos goarch i t))
        = File.file content readErr)
      (ha : s.manifest.assign (taskKey goos goarch i t)
        (newEntry env fl i t content readErr) = some m1) :
      StepCase env fl goos goarch i t s
        (LoopState.mk m1 (fsAfterBuild fl goos goarch i t s f)
          (toolchainTrace fl goos goarch i t s
            ++ [Action.openFile (joinPath fl.outDir (taskKey goos goarch i t))]
            ++ [Action.stdout ("Built " ++ taskKey goos goarch i t)]),
        Outcome.built)

/-! ## The spec's description of slugify -/

/-- Every maximal run of characters outside `[a-z0-9_]` is replaced by a
single '-': a character of the class is kept, and at a character outside
it the whole run it starts is consumed and one '-' is put in its place. -/
def collapseRuns : List Char → List Char
  | [] => []
  | c :: cs =>
    if isSlugRune c then c :: collapseRuns cs
    else Char.ofNat 45 :: collapseRuns (cs.dropWhile (fun d => !isSlugRune d))
termination_by l => l.length
decreasing_by
  · simp
  · simp only [List.length_cons]
    exact Nat.lt_succ_of_le (List.Sublist.length_le (List.dropWhile_sublist _))

/-- The spec's lowercasing of one character: the library's lowercasing of
ASCII letters, and the two characters outside ASCII whose lower case is an
ASCII letter. Every other character outside ASCII is outside `[a-z0-9_]`
before and after lowercasing and is left as it is. -/
def lowerSpec (c : Char) : Char :=
  if c = Char.ofNat 0x212A then Char.ofNat 107
  else if c = Char.ofNat 0x130 then Char.ofNat 105
  else c.toLower

/-- Leading '-' removed. -/
def dropLeadingDashes : List Char → List Char
  | [] => []
  | c :: cs => if c = Char.ofNat 45 then dropLeadingDashes cs else c :: cs

/-- Leading and trailing '-' removed. -/
def stripDashes (l : List Char) : List Char :=
  (dropLeadingDashes (dropLeadingDashes l).reverse).reverse

/-- The spec's slug: the lowercased string with every maximal run of
characters outside `[a-z0-9_]` replaced by a single '-' and with leading
and trailing '-' removed. -/
def slugifySpec (s : String) : String :=
  String.mk (stripDashes (collapseRuns (s.data.map lowerSpec)))

/-- A non-empty string of characters of `[a-z0-9_]`. -/
def isCleanName (s : String) : Bool := !s.data.isEmpty && s.data.all isSlugRune

/-- The test for an ASCII letter, an ASCII digit or '_'. -/
def isWordRune (c : Char) : Bool :=
  (decide (65 ≤ c.toNat) && decide (c.toNat ≤ 90)) || isSlugRune c

/-- Two neighbours are not both '-'. -/
def NotBothDash (a b : Char) : Prop := ¬ (a = Char.ofNat 45 ∧ b = Char.ofNat 45)

/-- The test for an ASCII decimal digit. -/
def isDigitRune (c : Char) : Bool := decide (48 ≤ c.toNat) && decide (c.toNat ≤ 57)

/-- The number a string of decimal digits stands for. -/
def decodeDigits (l : List Char) : Nat := l.foldl (fun a c => 10 * a + (c.toNat - 48)) 0

/-! ## Concrete inputs -/

/-- A stand-in for the hex digest in closed examples: the decimal bytes,
each followed by a comma; distinct contents get distinct strings. -/
def toyHex (b : Bytes) : String := String.join (b.map (fun n => toString n ++ ","))

/-- The playbook of the scenario of the spec: task a (module file) and task b (module shell). -/
def twoTasks : List Task :=
  [{ Name := "a", Module := "file", Params := [("path", "/tmp/x"), ("state", "touch")] },
   { Name := "b", Module := "shell", Params := [("cmd", "echo hi")] }]

/-- Per-task calls that all succeed; the toolchain leaves the readable artifact `[i + 1]`. -/
def goodCalls (i : Nat) : TaskCalls :=
  { mkdirErr := false, writeParamsErr := false, writeMainErr := false,
    goBuild := some (File.file [i + 1] none), now := "2024-01-01T00:00:00Z" }

/-- Per-task calls that all fail. -/
def badCalls (_ : Nat) : TaskCalls :=
  { mkdirErr := true, writeParamsErr := true, writeMainErr := true,
    goBuild := none, now := "2024-01-02T00:00:00Z" }

/-- An environment in which the playbook parses to `tasks` and the run is given `calls`. -/
def envOf (tasks : List Task) (calls : Nat → TaskCalls) : Env :=
  { sha256hex := toyHex, GOARCH := "amd64", readFile := fun _ => some "tasks: ...",
    yamlUnmarshal := fun _ => some tasks, mkdirOutErr := false, calls := calls,
    createErr := false, encodeErr := false }

/-- The flags `-playbook playbook.yaml -out ./dist -target linux/amd64`. -/
def linuxFlags : Flags :=
  { playbookPath := "playbook.yaml", outDir := "./dist", target := "linux/amd64", force := false }

/-- The flags `-playbook playbook.yaml -out /srv/dist -target linux/amd64`: an
absolute output directory, so that the toolchain writes to binPath. -/
def absFlags : Flags :=
  { playbookPath := "playbook.yaml", outDir := "/srv/dist", target := "linux/amd64",
    force := false }

/-- An empty output directory. -/
def emptyWorld : World :=
  { manifestFile := ManifestFile.unopenable, fs := fun _ => File.unopenable }

/-- Per-task calls in which everything succeeds but the read of the new
artifact `[1, 2, 3]`, which fails after one byte. -/
def truncatedReadCalls (_ : Nat) : TaskCalls :=
  { mkdirErr := false, writeParamsErr := false, writeMainErr := false,
    goBuild := some (File.file [1, 2, 3] (some 1)), now := "2024-01-01T00:00:00Z" }

/-- Per-task calls in which the directory is made, both `os.WriteFile` calls
fail (say the unit of an earlier run is read-only) and the toolchain
succeeds on what is there. -/
def failedWriteCalls (i : Nat) : TaskCalls :=
  { mkdirErr := false, writeParamsErr := true, writeMainErr := true,
    goBuild := some (File.file [i + 1] none), now := "2024-01-01T00:00:00Z" }

/-- Per-task calls in which the toolchain fails. -/
def failedBuildCalls (_ : Nat) : TaskCalls :=
  { mkdirErr := false, writeParamsErr := false, writeMainErr := false,
    goBuild := none, now := "2024-01-03T00:00:00Z" }

/-- The task a of the scenario. -/
def taskA : Task :=
  { Name := "a", Module := "file", Params := [("path", "/tmp/x"), ("state", "touch")] }

/-- A loop state whose manifest has an entry for task a and whose artifact `[9]` matches it. -/
def stateWithA (stale : Bool) : LoopState :=
  { manifest := some [("0-file-a-linux-amd64",
      { Sha256 := if stale then "stale" else "9,", Source := "old.yaml", Module := "file",
        BuiltAt := "2023-12-31T00:00:00Z" })],
    fs := fun p => if p = "dist/0-file-a-linux-amd64" then File.file [9] none
      else File.unopenable,
    trace := [] }

/-- The cache keys of the tasks that ended Built, given the outcomes of the
tasks `ts`, the first of them at position `i`. -/
def builtKeys (goos goarch : String) : Nat → List Task → List Outcome → List String
  | i, t :: ts, o :: os =>
    if o = Outcome.built then taskKey goos goarch i t :: builtKeys goos goarch (i + 1) ts os
    else builtKeys goos goarch (i + 1) ts os
  | _, _, _ => []

/-- The number of `os.Create` calls in a trace. -/
def createCalls : List Action → Nat
  | [] => 0
  | Action.createFile _ :: rest => createCalls rest + 1
  | _ :: rest => createCalls rest

/-- The playbook of the scenario with task a renamed to a2. -/
def renamedTasks : List Task :=
  [{ Name := "a2", Module := "file", Params := [("path", "/tmp/x"), ("state", "touch")] },
   { Name := "b", Module := "shell", Params := [("cmd", "echo hi")] }]

/-- Every key of the map is the cache key of a task at a position below `i`. -/
def KeysBelow (goos goarch : String) (i : Nat) (m : GoMap) : Prop :=
  ∀ k, (m.lookup k).isSome = true → ∃ j u, j < i ∧ k = taskKey goos goarch j u

/-- A manifest file the decoder rejects after it has stored an entry for
task a: a JSON object whose `source` is a number, say. -/
def mistypedManifest : ManifestFile :=
  ManifestFile.holds (some [("0-file-a-linux-amd64",
    { Sha256 := "1,", Source := "", Module := "file", BuiltAt := "2024-01-01T00:00:00Z" })])
    true

/-- Artifacts on disk: the binary `[1]` of task a. -/
def fsWithA : FS :=
  fun p => if p = "dist/0-file-a-linux-amd64" then File.file [1] none else File.unopenable

/-- A manifest file that holds the JSON document `null`. -/
def nullManifest : ManifestFile := ManifestFile.holds none false

/-- The task IDs of the tasks `ts`, the first of them at position `i`. -/
def idsFrom : Nat → List Task → List String
  | _, [] => []
  | i, t :: ts => taskID i t :: idsFrom (i + 1) ts

/-! # Theorems -/

/-! ## The association-list model of the map -/

theorem Manifest.get_set_same (m : Manifest) (k : String) (e : manifestEntry) :
    (m.set k e).get k = some e := by
  induction m with
  | nil => simp [Manifest.set, Manifest.get]
  | cons p rest ih =>
    obtain ⟨k1, e1⟩ := p
    by_cases h : k1 = k
    · simp [Manifest.set, Manifest.get, h]
    · simp [Manifest.set, Manifest.get, h, ih]

theorem Manifest.get_set_other (m : Manifest) (k k2 : String) (e : manifestEntry)
    (h : k2 ≠ k) : (m.set k e).get k2 = m.get k2 := by
  induction m with
  | nil => simp [Manifest.set, Manifest.get, h.symm]
  | cons p rest ih =>
    obtain ⟨k1, e1⟩ := p
    by_cases h1 : k1 = k
    · subst h1
      simp [Manifest.set, Manifest.get, h.symm]
    · by_cases h2 : k1 = k2
      · subst h2
        simp [Manifest.set, Manifest.get, h1]
      · simp [Manifest.set, Manifest.get, h1, h2, ih]

theorem GoMap.lookup_assign_same (m m1 : GoMap) (k : String) (e : manifestEntry)
    (h : m.assign k e = some m1) : m1.lookup k = some e := by
  cases m with
  | none => simp [GoMap.assign] at h
  | some l =>
    simp only [GoMap.assign, Option.some.injEq] at h
    subst h
    simp [GoMap.lookup, Manifest.get_set_same]

theorem GoMap.lookup_assign_other (m m1 : GoMap) (k k2 : String) (e : manifestEntry)
    (h : m.assign k e = some m1) (hk : k2 ≠ k) : m1.lookup k2 = m.lookup k2 := by
  cases m with
  | none => simp [GoMap.assign] at h
  | some l =>
    simp only [GoMap.assign, Option.some.injEq] at h
    subst h
    simp [GoMap.lookup, Manifest.get_set_other _ _ _ _ hk]

theorem GoMap.assign_isSome (m m1 : GoMap) (k : String) (e : manifestEntry)
    (h : m.assign k e = some m1) : m.isSome = true ∧ m1.isSome = true := by
  cases m with
  | none => simp [GoMap.assign] at h
  | some l =>
    simp only [GoMap.assign, Option.some.injEq] at h
    subst h
    simp

theorem cacheHit_iff_fresh (sha256hex : Bytes → String) (force : Bool) (manifest : GoMap)
    (fs : FS) (key binPath : String) :
    cacheHit sha256hex force manifest fs key binPath = true
      ↔ Fresh sha256hex force manifest fs key binPath := by
  unfold cacheHit Fresh
  cases hl : manifest.lookup key with
  | none => simp
  | some entry =>
    cases force with
    | true => simp
    | false =>
      cases hf : fs binPath with
      | unopenable => simp
      | file content readErr =>
        cases readErr with
        | none => simp
        | some n => simp

theorem processTask_hit (env : Env) (fl : Flags) (goos goarch : String) (i : Nat) (t : Task)
    (s : LoopState)
    (hc : cacheHit env.sha256hex fl.force s.manifest s.fs (taskKey goos goarch i t)
      (joinPath fl.outDir (taskKey goos goarch i t)) = true) :
    processTask env fl goos goarch i t s
      = (LoopState.mk s.manifest s.fs (checkedTrace fl goos goarch i t s
          ++ [Action.stdout ("Skipping " ++ taskKey goos goarch i t ++ " (unchanged)")]),
        Outcome.skipped) := by
  unfold checkedTrace taskKey at *
  simp [processTask, hc]

theorem processTask_mkdirErr (env : Env) (fl : Flags) (goos goarch : String) (i : Nat)
    (t : Task) (s : LoopState)
    (hc : cacheHit env.sha256hex fl.force s.manifest s.fs (taskKey goos goarch i t)
      (joinPath fl.outDir (taskKey goos goarch i t)) = false)
    (hm : (env.calls i).mkdirErr = true) :
    processTask env fl goos goarch i t s
      = (LoopState.mk s.manifest s.fs (checkedTrace fl goos goarch i t s
          ++ [Action.mkdirAll (joinPath fl.outDir (taskID i t))]
          ++ [Action.stderr ("mkdir " ++ joinPath fl.outDir (taskID i t))]),
        Outcome.mkdirFailed) := by
  unfold checkedTrace taskKey at *
  simp [processTask, hc, hm]

theorem processTask_buildErr (env : Env) (fl : Flags) (goos goarch : String) (i : Nat)
    (t : Task) (s : LoopState)
    (hc : cacheHit env.sha256hex fl.force s.manifest s.fs (taskKey goos goarch i t)
      (joinPath fl.outDir (taskKey goos goarch i t)) = false)
    (hm : (env.calls i).mkdirErr = false) (hb : (env.calls i).goBuild = none) :
    processTask env fl goos goarch i t s
      = (LoopState.mk s.manifest s.fs (toolchainTrace fl goos goarch i t s
          ++ [Action.stderr ("build " ++ taskKey goos goarch i t)]),
        Outcome.buildFailed) := by
  unfold toolchainTrace checkedTrace taskKey at *
  simp [processTask, hc, hm, hb]

theorem processTask_openErr (env : Env) (fl : Flags) (goos goarch : String) (i : Nat)
    (t : Task) (s : LoopState) (f : File)
    (hc : cacheHit env.sha256hex fl.force s.manifest s.fs (taskKey goos goarch i t)
      (joinPath fl.outDir (taskKey goos goarch i t)) = false)
    (hm : (env.calls i).mkdirErr = false)
    (hb : (env.calls i).goBuild = some f)
    (hf : fsAfterBuild fl goos goarch i t s f (joinPath fl.outDir (taskKey goos goarch i t))
      = File.unopenable) :
    processTask env fl goos goarch i t s
      = (LoopState.mk s.manifest (fsAfterBuild fl goos goarch i t s f)
        (toolchainTrace fl goos goarch i t s
        ++ [Action.openFile (joinPath fl.outDir (taskKey goos goarch i t))]
        ++ [Action.stderr "open built binary"]),
      Outcome.openFailed) := by
  unfold toolchainTrace fsAfterBuild checkedTrace taskKey at *
  simp only [processTask, hc, hm, hb, Bool.false_eq_true, if_false]
  simp only [hf]

theorem processTask_panic (env : Env) (fl : Flags) (goos goarch : String) (i : Nat)
    (t : Task) (s : LoopState) (f : File) (content : Bytes) (readErr : Option Nat)
    (hc : cacheHit env.sha256hex fl.force s.manifest s.fs (taskKey goos goarch i t)
      (joinPath fl.outDir (taskKey goos goarch i t)) = false)
    (hm : (env.calls i).mkdirErr = false)
    (hb : (env.calls i).goBuild = some f)
    (hf : fsAfterBuild fl goos goarch i t s f (joinPath fl.outDir (taskKey goos goarch i t))
      = File.file content readErr)
    (ha : s.manifest.assign (taskKey goos goarch i t) (newEntry env fl i t content readErr)
      = none) :
    processTask env fl goos goarch i t s
      = (LoopState.mk s.manifest (fsAfterBuild fl goos goarch i t s f)
        (toolchainTrace fl goos goarch i t s
        ++ [Action.openFile (joinPath fl.outDir (taskKey goos goarch i t))]),
      Outcome.panicked) := by
  unfold toolchainTrace fsAfterBuild newEntry checkedTrace taskKey at *
  simp only [processTask, hc, hm, hb, Bool.false_eq_true, if_false]
  simp only [hf, ha]

theorem processTask_built (env : Env) (fl : Flags) (goos goarch : String) (i : Nat)
    (t : Task) (s : LoopState) (f : File) (content : Bytes) (readErr : Option Nat)
    (m1 : GoMap)
    (hc : cacheHit env.sha256hex fl.force s.manifest s.fs (taskKey goos goarch i t)
      (joinPath fl.outDir (taskKey goos goarch i t)) = false)
    (hm : (env.calls i).mkdirErr = false)
    (hb : (env.calls i).goBuild = some f)
    (hf : fsAfterBuild fl goos goarch i t s f (joinPath fl.outDir (taskKey goos goarch i t))
      = File.file content readErr)
    (ha : s.manifest.assign (taskKey goos goarch i t) (newEntry env fl i t content readErr)
      = some m1) :
    processTask env fl goos goarch i t s
      = (LoopState.mk m1 (fsAfterBuild fl goos goarch i t s f)
        (toolchainTrace fl goos goarch i t s
        ++ [Action.openFile (joinPath fl.outDir (taskKey goos goarch i t))]
        ++ [Action.stdout ("Built " ++ taskKey goos goarch i t)]),
      Outcome.built) := by
  unfold toolchainTrace fsAfterBuild newEntry checkedTrace taskKey at *
  simp only [processTask, hc, hm, hb, Bool.false_eq_true, if_false]
  simp only [hf, ha]

/-- Every pass through the body of the loop is one of the six cases. -/
theorem processTask_cases (env : Env) (fl : Flags) (goos goarch : String) (i : Nat)
    (t : Task) (s : LoopState) :
    StepCase env fl goos goarch i t s (processTask env fl goos goarch i t s) := by
  cases hc : cacheHit env.sha256hex fl.force s.manifest s.fs (taskKey goos goarch i t)
      (joinPath fl.outDir (taskKey goos goarch i t)) with
  | true => rw [processTask_hit env fl goos goarch i t s hc]; exact StepCase.hit hc
  | false =>
    cases hm : (env.calls i).mkdirErr with
    | true =>
      rw [processTask_mkdirErr env fl goos goarch i t s hc hm]
      exact StepCase.mkdirErr hc hm
    | false =>
      cases hb : (env.calls i).goBuild with
      | none =>
        rw [processTask_buildErr env fl goos goarch i t s hc hm hb]
        exact StepCase.buildErr hc hm hb
      | some f =>
        cases hf : fsAfterBuild fl goos goarch i t s f
            (joinPath fl.outDir (taskKey goos goarch i t)) with
        | unopenable =>
          rw [processTask_openErr env fl goos goarch i t s f hc hm hb hf]
          exact StepCase.openErr f hc hm hb hf
        | file content readErr =>
          cases ha : s.manifest.assign (taskKey goos goarch i t)
              (newEntry env fl i t content readErr) with
          | none =>
            rw [processTask_panic env fl goos goarch i t s f content readErr hc hm hb hf ha]
            exact StepCase.panic f content readErr hc hm hb hf ha
          | some m1 =>
            rw [processTask_built env fl goos goarch i t s f content readErr m1 hc hm hb hf ha]
            exact StepCase.built f content readErr m1 hc hm hb hf ha

/-- C1. A task is skipped if and only if the force flag is not set, the
manifest has an entry under its cacheKey, the artifact at outDir/cacheKey
opens, is read to the end without error and its hex digest equals the
recorded one. A skipped task leaves manifest and artifacts as they were and
makes no call that generates a build unit or runs the toolchain; in every
other case the next call after the check is the `MkdirAll` that starts the
rebuild, so the check never ends the run. -/
theorem cache_check_skips_iff_fresh (env : Env) (fl : Flags) (goos goarch : String)
    (i : Nat) (t : Task) (s : LoopState) :
    ((processTask env fl goos goarch i t s).2 = Outcome.skipped
        ↔ Fresh env.sha256hex fl.force s.manifest s.fs (taskKey goos goarch i t)
            (joinPath fl.outDir (taskKey goos goarch i t)))
    ∧ ((processTask env fl goos goarch i t s).2 = Outcome.skipped →
        (processTask env fl goos goarch i t s).1.manifest = s.manifest
        ∧ (processTask env fl goos goarch i t s).1.fs = s.fs
        ∧ ∃ added, (processTask env fl goos goarch i t s).1.trace = s.trace ++ added
            ∧ ∀ a ∈ added, a.isBuildWork = false)
    ∧ ((processTask env fl goos goarch i t s).2 ≠ Outcome.skipped →
        ∃ rest, (processTask env fl goos goarch i t s).1.trace
          = checkedTrace fl goos goarch i t s
              ++ Action.mkdirAll (joinPath fl.outDir (taskID i t)) :: rest) := by
  have hiff := cacheHit_iff_fresh env.sha256hex fl.force s.manifest s.fs
    (taskKey goos goarch i t) (joinPath fl.outDir (taskKey goos goarch i t))
  have hfalse : ∀ {b : Bool}, b = false → ¬ b = true := by
    intro b hb; simp [hb]
  have hcase := processTask_cases env fl goos goarch i t s
  generalize processTask env fl goos goarch i t s = r at hcase ⊢
  cases hcase with
  | hit hc =>
    have hfresh := hiff.1 hc
    refine ⟨⟨fun _ => hfresh, fun _ => rfl⟩, fun _ => ⟨rfl, rfl, ?_⟩, fun h => absurd rfl h⟩
    refine ⟨cacheTrace fl.force s.manifest (taskKey goos goarch i t)
        (joinPath fl.outDir (taskKey goos goarch i t))
      ++ [Action.stdout ("Skipping " ++ taskKey goos goarch i t ++ " (unchanged)")], ?_, ?_⟩
    · simp [checkedTrace, List.append_assoc]
    · intro a ha
      obtain ⟨hforce, entry, hl, _⟩ := hfresh
      simp [cacheTrace, hl, hforce] at ha
      rcases ha with rfl | rfl <;> rfl
  | mkdirErr hc hm =>
    refine ⟨⟨fun h => by simp at h, fun h => absurd (hiff.2 h) (hfalse hc)⟩,
      fun h => by simp at h, fun _ => ⟨_, by simp [List.append_assoc]; rfl⟩⟩
  | buildErr hc hm hb =>
    refine ⟨⟨fun h => by simp at h, fun h => absurd (hiff.2 h) (hfalse hc)⟩,
      fun h => by simp at h, fun _ => ⟨_, by simp [toolchainTrace, List.append_assoc]; rfl⟩⟩
  | openErr f hc hm hb hf =>
    refine ⟨⟨fun h => by simp at h, fun h => absurd (hiff.2 h) (hfalse hc)⟩,
      fun h => by simp at h, fun _ => ⟨_, by simp [toolchainTrace, List.append_assoc]; rfl⟩⟩
  | panic f content readErr hc hm hb hf ha =>
    refine ⟨⟨fun h => by simp at h, fun h => absurd (hiff.2 h) (hfalse hc)⟩,
      fun h => by simp at h, fun _ => ⟨_, by simp [toolchainTrace, List.append_assoc]; rfl⟩⟩
  | built f content readErr m1 hc hm hb hf ha =>
    refine ⟨⟨fun h => by simp at h, fun h => absurd (hiff.2 h) (hfalse hc)⟩,
      fun h => by simp at h, fun _ => ⟨_, by simp [toolchainTrace, List.append_assoc]; rfl⟩⟩

/-! ## slugify -/

theorem slugLoop_true_eq (l : List Char) :
    slugLoop true l = slugLoop false (l.dropWhile (fun d => !isSlugRune d)) := by
  induction l with
  | nil => rfl
  | cons c cs ih =>
    by_cases hc : isSlugRune c = true
    · simp [slugLoop, List.dropWhile, hc]
    · simp only [Bool.not_eq_true] at hc
      simp [slugLoop, List.dropWhile, hc, ih]

theorem collapseRuns_eq_slugLoop (n : Nat) :
    ∀ l : List Char, l.length ≤ n → collapseRuns l = slugLoop false l := by
  induction n with
  | zero =>
    intro l hl
    have : l = [] := List.length_eq_zero.mp (Nat.le_zero.mp hl)
    subst this
    simp [collapseRuns, slugLoop]
  | succ n ih =>
    intro l hl
    cases l with
    | nil => simp [collapseRuns, slugLoop]
    | cons c cs =>
      have hcs : cs.length ≤ n := by simpa using hl
      rw [collapseRuns]
      by_cases hc : isSlugRune c = true
      · simp [slugLoop, hc, ih cs hcs]
      · simp only [Bool.not_eq_true] at hc
        have hd : (cs.dropWhile (fun d => !isSlugRune d)).length ≤ n :=
          le_trans (List.Sublist.length_le (List.dropWhile_sublist _)) hcs
        simp [slugLoop, hc, ih _ hd, slugLoop_true_eq cs]

theorem isSlugRune_dash : isSlugRune (Char.ofNat 45) = false := by decide

theorem slugLoop_mem (l : List Char) :
    ∀ b, ∀ c ∈ slugLoop b l, isSlugRune c = true ∨ c = Char.ofNat 45 := by
  induction l with
  | nil => intro b c hc; simp [slugLoop] at hc
  | cons r rs ih =>
    intro b c hc
    by_cases hr : isSlugRune r = true
    · simp only [slugLoop, hr, if_true, List.mem_cons] at hc
      rcases hc with rfl | hc
      · exact Or.inl hr
      · exact ih _ c hc
    · simp only [Bool.not_eq_true] at hr
      cases b with
      | false =>
        simp only [slugLoop, hr, Bool.false_eq_true, if_false, Bool.not_false, if_true,
          List.mem_cons] at hc
        rcases hc with rfl | hc
        · exact Or.inr rfl
        · exact ih _ c hc
      | true =>
        simp only [slugLoop, hr, Bool.false_eq_true, if_false, Bool.not_true] at hc
        exact ih _ c hc

theorem slugLoop_chain (l : List Char) :
    ∀ b, List.Chain' NotBothDash (slugLoop b l)
      ∧ (b = true → (slugLoop b l).head? ≠ some (Char.ofNat 45)) := by
  induction l with
  | nil => intro b; simp [slugLoop]
  | cons r rs ih =>
    intro b
    by_cases hr : isSlugRune r = true
    · have hne : r ≠ Char.ofNat 45 := by
        intro h
        rw [h, isSlugRune_dash] at hr
        simp at hr
      simp only [slugLoop, hr, if_true]
      refine ⟨?_, fun _ => by simp [hne]⟩
      rw [List.chain'_cons']
      exact ⟨fun y _ h => hne h.1, (ih false).1⟩
    · simp only [Bool.not_eq_true] at hr
      cases b with
      | false =>
        simp only [slugLoop, hr, Bool.false_eq_true, if_false, Bool.not_false, if_true]
        refine ⟨?_, fun h => by simp at h⟩
        rw [List.chain'_cons']
        refine ⟨fun y hy h => ?_, (ih true).1⟩
        have h1 := (ih true).2 rfl
        rw [Option.mem_def] at hy
        rw [hy, h.2] at h1
        exact h1 rfl
      | true =>
        simp only [slugLoop, hr, Bool.false_eq_true, if_false, Bool.not_true]
        exact ⟨(ih true).1, fun _ => (ih true).2 rfl⟩

theorem trimDash_within (l : List Char) : trimDash l <:+: l :=
  List.IsInfix.trans (List.rdropWhile_prefix _ _).isInfix (List.dropWhile_suffix _).isInfix

theorem trimDash_head (l : List Char) : (trimDash l).head? ≠ some (Char.ofNat 45) := by
  unfold trimDash
  generalize hm : l.dropWhile (fun c => decide (c = Char.ofNat 45)) = m
  cases m with
  | nil => simp [List.rdropWhile]
  | cons a rest =>
    have hnot := List.head_dropWhile_not (fun c => decide (c = Char.ofNat 45)) l
      (by rw [hm]; simp)
    simp only [hm, List.head_cons, decide_eq_false_iff_not] at hnot
    obtain ⟨t, ht⟩ := List.rdropWhile_prefix (fun c => decide (c = Char.ofNat 45)) (a :: rest)
    cases hq : List.rdropWhile (fun c => decide (c = Char.ofNat 45)) (a :: rest) with
    | nil => simp
    | cons x xs =>
      rw [hq] at ht
      simp only [List.cons_append, List.cons.injEq] at ht
      simp only [List.head?_cons, ne_eq, Option.some.injEq]
      rw [ht.1]
      exact hnot

theorem trimDash_getLast (l : List Char) : (trimDash l).getLast? ≠ some (Char.ofNat 45) := by
  unfold trimDash
  generalize l.dropWhile (fun c => decide (c = Char.ofNat 45)) = m
  intro h
  have hne : List.rdropWhile (fun c => decide (c = Char.ofNat 45)) m ≠ [] := by
    intro h0
    rw [h0] at h
    simp at h
  have hnot := List.rdropWhile_last_not (fun c => decide (c = Char.ofNat 45)) m hne
  rw [List.getLast?_eq_getLast _ hne] at h
  simp only [Option.some.injEq] at h
  simp [h] at hnot

theorem toLowerRune_eq_lowerSpec (c : Char) : toLowerRune c = lowerSpec c := by
  unfold toLowerRune lowerSpec Char.toLower
  by_cases h1 : c = Char.ofNat 0x212A
  · subst h1; decide
  · by_cases h2 : c = Char.ofNat 0x130
    · subst h2; decide
    · have n1 : c.toNat ≠ 0x212A := fun h => h1 (by rw [← Char.ofNat_toNat c, h])
      have n2 : c.toNat ≠ 0x130 := fun h => h2 (by rw [← Char.ofNat_toNat c, h])
      simp only [h1, h2, n1, n2, if_false, ge_iff_le]

theorem dropLeadingDashes_eq (l : List Char) :
    dropLeadingDashes l = l.dropWhile (fun c => decide (c = Char.ofNat 45)) := by
  induction l with
  | nil => rfl
  | cons c cs ih =>
    by_cases h : c = Char.ofNat 45
    · simp [dropLeadingDashes, List.dropWhile, h, ih]
    · simp [dropLeadingDashes, List.dropWhile, h]

theorem stripDashes_eq_trimDash (l : List Char) : stripDashes l = trimDash l := by
  simp only [stripDashes, trimDash, List.rdropWhile, dropLeadingDashes_eq]

theorem trimDash_decompose (l : List Char) :
    ∃ pre post, l = pre ++ trimDash l ++ post
      ∧ (∀ c ∈ pre, c = Char.ofNat 45) ∧ (∀ c ∈ post, c = Char.ofNat 45) := by
  refine ⟨l.takeWhile (fun c => decide (c = Char.ofNat 45)),
    (((l.dropWhile (fun c => decide (c = Char.ofNat 45))).reverse).takeWhile
      (fun c => decide (c = Char.ofNat 45))).reverse, ?_, ?_, ?_⟩
  · have h1 := List.takeWhile_append_dropWhile (fun c => decide (c = Char.ofNat 45)) l
    have h2 := List.takeWhile_append_dropWhile (fun c => decide (c = Char.ofNat 45))
      (l.dropWhile (fun c => decide (c = Char.ofNat 45))).reverse
    have h3 := congrArg List.reverse h2
    rw [List.reverse_append, List.reverse_reverse] at h3
    unfold trimDash List.rdropWhile
    rw [List.append_assoc, h3, h1]
  · intro c hc
    simpa using List.mem_takeWhile_imp hc
  · intro c hc
    rw [List.mem_reverse] at hc
    simpa using List.mem_takeWhile_imp hc

theorem isWordRune_lower (c : Char) (h : isWordRune c = true) :
    toLowerRune c = c.toLower ∧ isSlugRune c.toLower = true := by
  have e := toLowerRune_eq_lowerSpec c
  by_cases hu : 65 ≤ c.toNat ∧ c.toNat ≤ 90
  · have hc : c = Char.ofNat c.toNat := (Char.ofNat_toNat c).symm
    obtain ⟨n, hn⟩ : ∃ n, c.toNat = n := ⟨_, rfl⟩
    rw [hn] at hu hc
    obtain ⟨h1, h2⟩ := hu
    subst hc
    interval_cases n <;> exact ⟨by decide, by decide⟩
  · have hs : isSlugRune c = true := by
      simp only [isWordRune, Bool.or_eq_true, Bool.and_eq_true, decide_eq_true_eq] at h
      rcases h with h | h
      · exact absurd h hu
      · exact h
    have hl : c.toLower = c := by
      unfold Char.toLower
      simp only [ge_iff_le, hu, if_false]
    have ht : toLowerRune c = c := by
      simp only [isSlugRune, Bool.or_eq_true, Bool.and_eq_true, decide_eq_true_eq] at hs
      unfold toLowerRune
      rw [if_neg hu, if_neg (by omega), if_neg (by omega)]
    rw [hl]
    exact ⟨ht, hs⟩

theorem slugLoop_of_slugRunes (l : List Char) (h : ∀ c ∈ l, isSlugRune c = true) :
    ∀ b, slugLoop b l = l := by
  induction l with
  | nil => intro b; rfl
  | cons c cs ih =>
    intro b
    simp only [slugLoop, h c (by simp), if_true]
    rw [ih (fun x hx => h x (by simp [hx]))]

theorem trimDash_of_no_dash (l : List Char) (h : ∀ c ∈ l, c ≠ Char.ofNat 45) :
    trimDash l = l := by
  have h1 : l.dropWhile (fun c => decide (c = Char.ofNat 45)) = l := by
    rw [List.dropWhile_eq_self_iff]
    intro hl
    simpa using h _ (List.get_mem l 0 hl)
  have h2 : List.rdropWhile (fun c => decide (c = Char.ofNat 45)) l = l := by
    rw [List.rdropWhile_eq_self_iff]
    intro hl
    simpa using h _ (List.getLast_mem hl)
  unfold trimDash
  rw [h1, h2]

/-- C9. The function `slugify` returns the lowercased string with every
maximal run of characters outside `[a-z0-9_]` replaced by a single '-' and
with leading and trailing '-' removed (`slugifySpec`, written from the
spec's words with the library's lowercasing): the result is the collapsed
lowercased string less a prefix and a suffix made of '-' only. It holds
only characters of `[a-z0-9_]` and '-', has no two adjacent '-', and neither
begins nor ends with '-'. A string of ASCII letters, digits and '_' is
returned whole, with its letters in lower case. -/
theorem slugify_eq_spec (s : String) :
    slugify s = slugifySpec s
    ∧ (∃ pre post, collapseRuns (s.data.map lowerSpec) = pre ++ (slugify s).data ++ post
        ∧ (∀ c ∈ pre, c = Char.ofNat 45) ∧ (∀ c ∈ post, c = Char.ofNat 45))
    ∧ (∀ c ∈ (slugify s).data, isSlugRune c = true ∨ c = Char.ofNat 45)
    ∧ ¬ [Char.ofNat 45, Char.ofNat 45] <:+: (slugify s).data
    ∧ (slugify s).data.head? ≠ some (Char.ofNat 45)
    ∧ (slugify s).data.getLast? ≠ some (Char.ofNat 45)
    ∧ ((∀ c ∈ s.data, isWordRune c = true) →
        (slugify s).data = s.data.map Char.toLower) := by
  have hmap : s.data.map toLowerRune = s.data.map lowerSpec :=
    List.map_congr_left (fun c _ => toLowerRune_eq_lowerSpec c)
  refine ⟨?_, ?_, ?_, ?_, trimDash_head _, trimDash_getLast _, ?_⟩
  · simp only [slugify, slugifySpec, slugifyRunes]
    rw [stripDashes_eq_trimDash, ← hmap, collapseRuns_eq_slugLoop _ _ (le_refl _)]
  · rw [← hmap, collapseRuns_eq_slugLoop _ _ (le_refl _)]
    exact trimDash_decompose _
  · intro c hc
    exact slugLoop_mem _ false c ((trimDash_within _).subset hc)
  · intro h
    have hchain := (slugLoop_chain (s.data.map toLowerRune) false).1
    have h2 := hchain.infix (List.IsInfix.trans h (trimDash_within _))
    simp [NotBothDash] at h2
  · intro hw
    have hlow : s.data.map toLowerRune = s.data.map Char.toLower :=
      List.map_congr_left (fun c hc => (isWordRune_lower c (hw c hc)).1)
    have hslug : ∀ c ∈ s.data.map Char.toLower, isSlugRune c = true := by
      intro c hc
      obtain ⟨x, hx, rfl⟩ := List.mem_map.mp hc
      exact (isWordRune_lower x (hw x hx)).2
    show trimDash (slugLoop false (s.data.map toLowerRune)) = _
    rw [hlow, slugLoop_of_slugRunes _ hslug false]
    apply trimDash_of_no_dash
    intro c hc hd
    have := hslug c hc
    rw [hd, isSlugRune_dash] at this
    simp at this

/-- The name "Hello_World9" is returned in lower case and whole. -/
theorem slugify_eq_spec_witness :
    (slugify "Hello_World9").data = ("Hello_World9" : String).data.map Char.toLower
    ∧ slugify "Hello_World9" = "hello_world9" :=
  ⟨(slugify_eq_spec "Hello_World9").2.2.2.2.2.2 (by decide), by decide⟩

/-! ## The position in the task identity -/

theorem digitChar_digit (k : Nat) (h : k < 10) :
    isDigitRune (Nat.digitChar k) = true ∧ (Nat.digitChar k).toNat - 48 = k := by
  interval_cases k <;> exact ⟨rfl, rfl⟩

theorem decodeDigits_append (D : List Char) (c : Char) :
    decodeDigits (D ++ [c]) = 10 * decodeDigits D + (c.toNat - 48) := by
  simp [decodeDigits, List.foldl_append]

theorem toDigitsCore_spec (fuel : Nat) :
    ∀ (n : Nat) (ds : List Char), n < fuel →
      ∃ D, Nat.toDigitsCore 10 fuel n ds = D ++ ds ∧ D ≠ []
        ∧ (∀ c ∈ D, isDigitRune c = true) ∧ decodeDigits D = n := by
  induction fuel with
  | zero => intro n ds h; omega
  | succ fuel ih =>
    intro n ds h
    have hd := digitChar_digit (n % 10) (Nat.mod_lt _ (by decide))
    by_cases h0 : n / 10 = 0
    · refine ⟨[Nat.digitChar (n % 10)], ?_, by simp, ?_, ?_⟩
      · simp [Nat.toDigitsCore, h0]
      · intro c hc
        simp only [List.mem_singleton] at hc
        rw [hc]; exact hd.1
      · simp only [decodeDigits, List.foldl_cons, List.foldl_nil, hd.2]
        omega
    · obtain ⟨D, hD, hne, hdig, hdec⟩ := ih (n / 10) (Nat.digitChar (n % 10) :: ds) (by omega)
      refine ⟨D ++ [Nat.digitChar (n % 10)], ?_, by simp, ?_, ?_⟩
      · simp [Nat.toDigitsCore, h0, hD]
      · intro c hc
        simp only [List.mem_append, List.mem_singleton] at hc
        rcases hc with hc | hc
        · exact hdig c hc
        · rw [hc]; exact hd.1
      · rw [decodeDigits_append, hdec, hd.2]
        omega

theorem toString_digits (i : Nat) :
    (toString i).data ≠ [] ∧ (∀ c ∈ (toString i).data, isDigitRune c = true)
      ∧ decodeDigits (toString i).data = i := by
  obtain ⟨D, hD, hne, hdig, hdec⟩ := toDigitsCore_spec (i + 1) i [] (by omega)
  have hdata : (toString i).data = D := by
    show Nat.toDigitsCore 10 (i + 1) i [] = D
    rw [hD]; simp
  rw [hdata]
  exact ⟨hne, hdig, hdec⟩

theorem toLowerRune_digit (c : Char) (h : isDigitRune c = true) : toLowerRune c = c := by
  simp only [isDigitRune, Bool.and_eq_true, decide_eq_true_eq] at h
  unfold toLowerRune
  rw [if_neg (by omega), if_neg (by omega), if_neg (by omega)]

theorem isSlugRune_digit (c : Char) (h : isDigitRune c = true) : isSlugRune c = true := by
  simp only [isDigitRune, Bool.and_eq_true, decide_eq_true_eq] at h
  simp [isSlugRune, h]

theorem digit_ne_dash (c : Char) (h : isDigitRune c = true) : c ≠ Char.ofNat 45 := by
  intro hc
  rw [hc] at h
  exact absurd h (by decide)

theorem map_toLower_digits (D : List Char) (hdig : ∀ c ∈ D, isDigitRune c = true) :
    D.map toLowerRune = D := by
  induction D with
  | nil => rfl
  | cons c cs ih =>
    simp only [List.map_cons]
    rw [toLowerRune_digit c (hdig c (by simp)), ih (fun x hx => hdig x (by simp [hx]))]

theorem slugLoop_digits (D X : List Char) (hdig : ∀ c ∈ D, isDigitRune c = true) :
    ∀ b, D ≠ [] → slugLoop b (D ++ X) = D ++ slugLoop false X := by
  induction D with
  | nil => intro b h; exact absurd rfl h
  | cons c cs ih =>
    intro b _
    have hc := isSlugRune_digit c (hdig c (by simp))
    cases cs with
    | nil => simp [slugLoop, hc]
    | cons c2 cs2 =>
      have := ih (fun x hx => hdig x (by simp [hx])) false (by simp)
      simp only [List.cons_append] at this ⊢
      simp only [slugLoop, hc, if_true]
      simp only [slugLoop] at this
      rw [this]

theorem rdropWhile_append_of_self (p : Char → Bool) (D Z : List Char)
    (hD : List.rdropWhile p D = D) :
    List.rdropWhile p (D ++ Z) = D ++ List.rdropWhile p Z := by
  unfold List.rdropWhile at *
  rw [List.reverse_append, List.dropWhile_append]
  split_ifs with h
  · rw [List.isEmpty_iff] at h
    rw [hD, h]; simp
  · simp

theorem trimDash_digits (D Y : List Char) (hne : D ≠ [])
    (hdig : ∀ c ∈ D, isDigitRune c = true) :
    ∃ T, trimDash (D ++ Char.ofNat 45 :: Y) = D ++ T
      ∧ (T = [] ∨ T.head? = some (Char.ofNat 45)) := by
  have hdrop : (D ++ Char.ofNat 45 :: Y).dropWhile (fun c => decide (c = Char.ofNat 45))
      = D ++ Char.ofNat 45 :: Y := by
    cases D with
    | nil => exact absurd rfl hne
    | cons c cs =>
      have := digit_ne_dash c (hdig c (by simp))
      simp [List.dropWhile, this]
  have hself : List.rdropWhile (fun c => decide (c = Char.ofNat 45)) D = D := by
    rw [List.rdropWhile_eq_self_iff]
    intro hl
    have := digit_ne_dash _ (hdig _ (List.getLast_mem hl))
    simpa using this
  refine ⟨List.rdropWhile (fun c => decide (c = Char.ofNat 45)) (Char.ofNat 45 :: Y), ?_, ?_⟩
  · unfold trimDash
    rw [hdrop, rdropWhile_append_of_self _ _ _ hself]
  · obtain ⟨t, ht⟩ := List.rdropWhile_prefix (fun c => decide (c = Char.ofNat 45))
      (Char.ofNat 45 :: Y)
    cases hq : List.rdropWhile (fun c => decide (c = Char.ofNat 45)) (Char.ofNat 45 :: Y) with
    | nil => exact Or.inl rfl
    | cons x xs =>
      rw [hq] at ht
      simp only [List.cons_append, List.cons.injEq] at ht
      right
      simp [ht.1]

theorem slugifyRunes_digits (D rest : List Char) (hne : D ≠ [])
    (hdig : ∀ c ∈ D, isDigitRune c = true) :
    ∃ T, slugifyRunes (D ++ Char.ofNat 45 :: rest) = D ++ T
      ∧ (T = [] ∨ T.head? = some (Char.ofNat 45)) := by
  unfold slugifyRunes
  have hlow : toLowerRune (Char.ofNat 45) = Char.ofNat 45 := by decide
  rw [List.map_append, map_toLower_digits D hdig, List.map_cons, hlow,
    slugLoop_digits D _ hdig false hne]
  have hl : slugLoop false (Char.ofNat 45 :: List.map toLowerRune rest)
      = Char.ofNat 45 :: slugLoop true (List.map toLowerRune rest) := by
    simp [slugLoop, isSlugRune_dash]
  rw [hl]
  exact trimDash_digits D _ hne hdig

theorem takeWhile_digits (D T : List Char) (hdig : ∀ c ∈ D, isDigitRune c = true)
    (hT : T = [] ∨ T.head? = some (Char.ofNat 45)) :
    (D ++ T).takeWhile isDigitRune = D := by
  induction D with
  | nil =>
    rcases hT with rfl | hT
    · rfl
    · cases T with
      | nil => rfl
      | cons x xs =>
        simp only [List.head?_cons, Option.some.injEq] at hT
        subst hT
        simp only [List.nil_append]
        rw [List.takeWhile_cons_of_neg]
        decide
  | cons c cs ih =>
    have hc := hdig c (by simp)
    simp only [List.cons_append]
    rw [List.takeWhile_cons_of_pos hc, ih (fun x hx => hdig x (by simp [hx]))]

/-- The slug of "{i}-{m}-{n}" determines the position `i`. -/
theorem taskID_position (i j : Nat) (t u : Task) (h : taskID i t = taskID j u) : i = j := by
  have hdash : ("-" : String).data = [Char.ofNat 45] := rfl
  have hdata : ∀ (k : Nat) (v : Task), (taskID k v).data
      = slugifyRunes ((toString k).data ++ Char.ofNat 45 :: (v.Module.data ++ Char.ofNat 45
          :: v.Name.data)) := by
    intro k v
    simp [taskID, slugify, String.data_append, hdash]
  obtain ⟨hne1, hdig1, hdec1⟩ := toString_digits i
  obtain ⟨hne2, hdig2, hdec2⟩ := toString_digits j
  obtain ⟨T1, h1, hT1⟩ := slugifyRunes_digits (toString i).data
    (t.Module.data ++ Char.ofNat 45 :: t.Name.data) hne1 hdig1
  obtain ⟨T2, h2, hT2⟩ := slugifyRunes_digits (toString j).data
    (u.Module.data ++ Char.ofNat 45 :: u.Name.data) hne2 hdig2
  have heq : (toString i).data ++ T1 = (toString j).data ++ T2 := by
    rw [← h1, ← h2, ← hdata, ← hdata, h]
  have hD : (toString i).data = (toString j).data := by
    rw [← takeWhile_digits _ T1 hdig1 hT1, ← takeWhile_digits _ T2 hdig2 hT2, heq]
  rw [← hdec1, ← hdec2, hD]

theorem cacheKey_id_inj (a b goos goarch : String)
    (h : cacheKey a goos goarch = cacheKey b goos goarch) : a = b := by
  have h1 := congrArg String.data h
  simp only [cacheKey, String.data_append, List.append_assoc] at h1
  exact String.ext (List.append_cancel_right h1)

theorem cacheKey_goos_inj (id a b goarch : String)
    (h : cacheKey id a goarch = cacheKey id b goarch) : a = b := by
  have h1 := congrArg String.data h
  simp only [cacheKey, String.data_append, List.append_assoc] at h1
  exact String.ext (List.append_cancel_right
    (List.append_cancel_left (List.append_cancel_left h1)))

theorem cacheKey_goarch_inj (id goos a b : String)
    (h : cacheKey id goos a = cacheKey id goos b) : a = b := by
  have h1 := congrArg String.data h
  simp only [cacheKey, String.data_append, List.append_assoc] at h1
  exact String.ext (List.append_cancel_left (List.append_cancel_left
    (List.append_cancel_left (List.append_cancel_left h1))))

/-- Tasks at different positions of one run have different cache keys. -/
theorem taskKey_position (goos goarch : String) (i j : Nat) (t u : Task)
    (h : taskKey goos goarch i t = taskKey goos goarch j u) : i = j :=
  taskID_position i j t u (cacheKey_id_inj _ _ _ _ h)

/-- C10 fails as stated: the names "A" and "a" differ, everything else is the
same, and the cacheKey is the same. -/
theorem cacheKey_same_for_names_differing_in_case :
    ("A" : String) ≠ "a"
    ∧ taskKey "linux" "amd64" 0 { Name := "A", Module := "file", Params := [] }
      = taskKey "linux" "amd64" 0 { Name := "a", Module := "file", Params := [] } := by
  decide

theorem toLowerRune_slugRune (c : Char) (h : isSlugRune c = true) : toLowerRune c = c := by
  simp only [isSlugRune, Bool.or_eq_true, Bool.and_eq_true, decide_eq_true_eq] at h
  unfold toLowerRune
  rw [if_neg (by omega), if_neg (by omega), if_neg (by omega)]

theorem map_toLower_slugRunes (l : List Char) (h : ∀ c ∈ l, isSlugRune c = true) :
    l.map toLowerRune = l := by
  induction l with
  | nil => rfl
  | cons c cs ih =>
    simp only [List.map_cons]
    rw [toLowerRune_slugRune c (h c (by simp)), ih (fun x hx => h x (by simp [hx]))]

theorem slugLoop_slugRunes_append (G X : List Char) (h : ∀ c ∈ G, isSlugRune c = true) :
    ∀ b, G ≠ [] → slugLoop b (G ++ X) = G ++ slugLoop false X := by
  induction G with
  | nil => intro b h0; exact absurd rfl h0
  | cons c cs ih =>
    intro b _
    have hc := h c (by simp)
    cases cs with
    | nil => simp [slugLoop, hc]
    | cons c2 cs2 =>
      have := ih (fun x hx => h x (by simp [hx])) false (by simp)
      simp only [List.cons_append] at this ⊢
      simp only [slugLoop, hc, if_true]
      simp only [slugLoop] at this
      rw [this]

theorem slugLoop_dash (b : Bool) (X : List Char) :
    slugLoop b (Char.ofNat 45 :: X)
      = (if b then [] else [Char.ofNat 45]) ++ slugLoop true X := by
  cases b <;> simp [slugLoop, isSlugRune_dash]

theorem trimDash_of_ends (l : List Char)
    (h1 : ∀ hl : 0 < l.length, l.get ⟨0, hl⟩ ≠ Char.ofNat 45)
    (h2 : ∀ hl : l ≠ [], l.getLast hl ≠ Char.ofNat 45) : trimDash l = l := by
  have e1 : l.dropWhile (fun c => decide (c = Char.ofNat 45)) = l := by
    rw [List.dropWhile_eq_self_iff]
    intro hl
    simpa using h1 hl
  have e2 : List.rdropWhile (fun c => decide (c = Char.ofNat 45)) l = l := by
    rw [List.rdropWhile_eq_self_iff]
    intro hl
    simpa using h2 hl
  unfold trimDash
  rw [e1, e2]

theorem slugRune_ne_dash (c : Char) (h : isSlugRune c = true) : c ≠ Char.ofNat 45 := by
  intro hc
  rw [hc, isSlugRune_dash] at h
  simp at h

/-- The slug of "{i}-{m}-{n}" for non-empty `m` and `n` over `[a-z0-9_]` is the string itself. -/
theorem slugifyRunes_clean (D M N : List Char) (hD : D ≠ [])
    (hdig : ∀ c ∈ D, isDigitRune c = true)
    (hM : M ≠ []) (hMs : ∀ c ∈ M, isSlugRune c = true)
    (hN : N ≠ []) (hNs : ∀ c ∈ N, isSlugRune c = true) :
    slugifyRunes (D ++ Char.ofNat 45 :: (M ++ Char.ofNat 45 :: N))
      = D ++ Char.ofNat 45 :: (M ++ Char.ofNat 45 :: N) := by
  have hlow : toLowerRune (Char.ofNat 45) = Char.ofNat 45 := by decide
  have hDs : ∀ c ∈ D, isSlugRune c = true := fun c hc => isSlugRune_digit c (hdig c hc)
  unfold slugifyRunes
  simp only [List.map_append, List.map_cons, hlow, map_toLower_slugRunes D hDs,
    map_toLower_slugRunes M hMs, map_toLower_slugRunes N hNs]
  rw [slugLoop_slugRunes_append D _ hDs false hD, slugLoop_dash,
    slugLoop_slugRunes_append M _ hMs true hM, slugLoop_dash,
    slugLoop_of_slugRunes N hNs true]
  simp only [Bool.false_eq_true, if_false, List.singleton_append]
  apply trimDash_of_ends
  · intro hl
    cases D with
    | nil => exact absurd rfl hD
    | cons d ds => exact slugRune_ne_dash d (hDs d (by simp))
  · intro hl
    have hlast : (D ++ Char.ofNat 45 :: (M ++ Char.ofNat 45 :: N)).getLast hl
        = N.getLast hN := by
      rw [List.getLast_append_of_ne_nil (by simp), List.getLast_cons (by simp),
        List.getLast_append_of_ne_nil (by simp), List.getLast_cons hN]
    rw [hlast]
    exact slugRune_ne_dash _ (hNs _ (List.getLast_mem hN))

theorem isCleanName_iff (s : String) :
    isCleanName s = true ↔ s.data ≠ [] ∧ ∀ c ∈ s.data, isSlugRune c = true := by
  simp [isCleanName, List.isEmpty_iff]

theorem taskID_data (i : Nat) (t : Task) :
    (taskID i t).data = slugifyRunes ((toString i).data
      ++ Char.ofNat 45 :: (t.Module.data ++ Char.ofNat 45 :: t.Name.data)) := by
  have hdash : ("-" : String).data = [Char.ofNat 45] := rfl
  simp [taskID, slugify, String.data_append, hdash]

theorem taskID_clean (i : Nat) (t : Task) (hm : isCleanName t.Module = true)
    (hn : isCleanName t.Name = true) :
    (taskID i t).data = (toString i).data
      ++ Char.ofNat 45 :: (t.Module.data ++ Char.ofNat 45 :: t.Name.data) := by
  obtain ⟨hne, hdig, _⟩ := toString_digits i
  obtain ⟨hM, hMs⟩ := (isCleanName_iff _).1 hm
  obtain ⟨hN, hNs⟩ := (isCleanName_iff _).1 hn
  rw [taskID_data, slugifyRunes_clean _ _ _ hne hdig hM hMs hN hNs]

/-- Writing another character outside `[a-z0-9_]` at one place changes no slug. -/
theorem slugLoop_swap_outside (c c2 : Char) (Y : List Char)
    (hc : isSlugRune c = false) (hc2 : isSlugRune c2 = false) (X : List Char) :
    ∀ b, slugLoop b (X ++ c :: Y) = slugLoop b (X ++ c2 :: Y) := by
  induction X with
  | nil => intro b; simp [slugLoop, hc, hc2]
  | cons x xs ih =>
    intro b
    simp only [List.cons_append, slugLoop, List.append_eq, ih]

/-- C10, amended. Changing the position, the os or the arch alone always
yields a different cacheKey. Changing the module alone, or the name alone,
yields a different cacheKey whenever module and name, old and new, are
non-empty strings over `[a-z0-9_]`. Modules or names that are equal after
lowercasing (`lowerSpec`) share the cacheKey, and so do modules or names that differ in
which character outside `[a-z0-9_]` stands at one place. -/
theorem cacheKey_changes (i j : Nat) (t u : Task) (goos goos2 goarch goarch2 : String) :
    (i ≠ j → taskKey goos goarch i t ≠ taskKey goos goarch j t)
    ∧ (goos ≠ goos2 → taskKey goos goarch i t ≠ taskKey goos2 goarch i t)
    ∧ (goarch ≠ goarch2 → taskKey goos goarch i t ≠ taskKey goos goarch2 i t)
    ∧ (isCleanName t.Module = true → isCleanName t.Name = true →
        isCleanName u.Module = true → isCleanName u.Name = true →
        (t.Module = u.Module ∧ t.Name ≠ u.Name ∨ t.Module ≠ u.Module ∧ t.Name = u.Name) →
        taskKey goos goarch i t ≠ taskKey goos goarch i u)
    ∧ (t.Module.data.map lowerSpec = u.Module.data.map lowerSpec →
        t.Name.data.map lowerSpec = u.Name.data.map lowerSpec →
        taskKey goos goarch i t = taskKey goos goarch i u)
    ∧ (∀ (x y : List Char) (c c2 : Char),
        isSlugRune (lowerSpec c) = false → isSlugRune (lowerSpec c2) = false →
        taskKey goos goarch i { t with Name := String.mk (x ++ c :: y) }
          = taskKey goos goarch i { t with Name := String.mk (x ++ c2 :: y) }
        ∧ taskKey goos goarch i { t with Module := String.mk (x ++ c :: y) }
          = taskKey goos goarch i { t with Module := String.mk (x ++ c2 :: y) }) := by
  have hkey : ∀ a b : Task, (taskID i a).data = (taskID i b).data →
      taskKey goos goarch i a = taskKey goos goarch i b := by
    intro a b h
    unfold taskKey
    rw [String.ext h]
  refine ⟨fun h e => h (taskKey_position _ _ _ _ _ _ e),
    fun h e => h (cacheKey_goos_inj _ _ _ _ e),
    fun h e => h (cacheKey_goarch_inj _ _ _ _ e), ?_, ?_, ?_⟩
  · intro h1 h2 h3 h4 hch e
    have hid := congrArg String.data (cacheKey_id_inj _ _ _ _ e)
    rw [taskID_clean i t h1 h2, taskID_clean i u h3 h4] at hid
    have hid2 := List.append_cancel_left hid
    simp only [List.cons.injEq, true_and] at hid2
    rcases hch with ⟨hm, hn⟩ | ⟨hm, hn⟩
    · rw [hm] at hid2
      have h5 := List.append_cancel_left hid2
      simp only [List.cons.injEq, true_and] at h5
      exact hn (String.ext h5)
    · rw [hn] at hid2
      exact hm (String.ext (List.append_cancel_right hid2))
  · intro hm hn
    have hfun : toLowerRune = lowerSpec := funext toLowerRune_eq_lowerSpec
    rw [← hfun] at hm hn
    apply hkey
    rw [taskID_data, taskID_data]
    unfold slugifyRunes
    simp only [List.map_append, List.map_cons, hm, hn]
  · intro x y c c2 hc hc2
    rw [← toLowerRune_eq_lowerSpec] at hc hc2
    constructor
    · apply hkey
      rw [taskID_data, taskID_data]
      unfold slugifyRunes
      have e := slugLoop_swap_outside (toLowerRune c) (toLowerRune c2)
        (y.map toLowerRune) hc hc2
        ((toString i).data.map toLowerRune ++ toLowerRune (Char.ofNat 45)
          :: (t.Module.data.map toLowerRune ++ toLowerRune (Char.ofNat 45)
            :: x.map toLowerRune)) false
      simpa [List.append_assoc] using congrArg trimDash e
    · apply hkey
      rw [taskID_data, taskID_data]
      unfold slugifyRunes
      have e := slugLoop_swap_outside (toLowerRune c) (toLowerRune c2)
        (y.map toLowerRune ++ toLowerRune (Char.ofNat 45) :: t.Name.data.map toLowerRune)
        hc hc2
        ((toString i).data.map toLowerRune ++ toLowerRune (Char.ofNat 45)
          :: x.map toLowerRune) false
      simpa [List.append_assoc] using congrArg trimDash e

/-- Position, os, arch and name changed one at a time on task a; the names
"Deploy App" and "deploy.app" share the cacheKey. -/
theorem cacheKey_changes_witness :
    taskKey "linux" "amd64" 0 taskA ≠ taskKey "linux" "amd64" 1 taskA
    ∧ taskKey "linux" "amd64" 0 taskA ≠ taskKey "darwin" "amd64" 0 taskA
    ∧ taskKey "linux" "amd64" 0 taskA ≠ taskKey "linux" "arm64" 0 taskA
    ∧ taskKey "linux" "amd64" 0 taskA
        ≠ taskKey "linux" "amd64" 0 { Name := "a2", Module := "file", Params := taskA.Params }
    ∧ taskKey "linux" "amd64" 0 { Name := "Deploy App", Module := "file", Params := [] }
        = taskKey "linux" "amd64" 0 { Name := "deploy.app", Module := "file", Params := [] } :=
  have h := cacheKey_changes 0 1 taskA
    { Name := "a2", Module := "file", Params := taskA.Params }
    "linux" "darwin" "amd64" "arm64"
  ⟨h.1 (by decide), h.2.1 (by decide), h.2.2.1 (by decide),
    h.2.2.2.1 (by decide) (by decide) (by decide) (by decide) (Or.inl ⟨rfl, by decide⟩),
    by decide⟩

/-! ## The loop -/

theorem isAbs_joinPath (dir name : String) (h : isAbs dir = true) :
    isAbs (joinPath dir name) = true := by
  have hd : dir.data ≠ [] := by
    intro h0
    simp [isAbs, h0] at h
  have hp : isAbs (dir ++ "/" ++ name) = true := by
    cases hdd : dir.data with
    | nil => exact absurd hdd hd
    | cons c cs =>
      simp only [isAbs, hdd, List.head?_cons, decide_eq_true_eq] at h
      simp [isAbs, String.data_append, hdd, h]
  have hne : (dir ++ "/" ++ name).data ≠ [] := by
    simp [String.data_append, hd]
  simp only [joinPath, hd, if_false, cleanPath, hne, hp, if_true]
  simp [isAbs, String.data_append]

theorem outputPath_of_abs (dir outDir key : String) (h : isAbs outDir = true) :
    outputPath dir (joinPath outDir key) = joinPath outDir key := by
  simp [outputPath, isAbs_joinPath outDir key h]

theorem runTasks_cons (env : Env) (fl : Flags) (goos goarch : String) (i : Nat) (t : Task)
    (ts : List Task) (s : LoopState) :
    runTasks env fl goos goarch i (t :: ts) s
      = if (processTask env fl goos goarch i t s).2 = Outcome.panicked then
          ((processTask env fl goos goarch i t s).1, [Outcome.panicked])
        else
          ((runTasks env fl goos goarch (i + 1) ts (processTask env fl goos goarch i t s).1).1,
            (processTask env fl goos goarch i t s).2
              :: (runTasks env fl goos goarch (i + 1) ts
                    (processTask env fl goos goarch i t s).1).2) := rfl

theorem toolchainCalls_append (a b : List Action) :
    toolchainCalls (a ++ b) = toolchainCalls a + toolchainCalls b := by
  induction a with
  | nil => simp [toolchainCalls]
  | cons x rest ih =>
    cases x <;> simp [toolchainCalls, ih]
    omega

theorem toolchainCalls_cacheTrace (force : Bool) (m : GoMap) (key binPath : String) :
    toolchainCalls (cacheTrace force m key binPath) = 0 := by
  unfold cacheTrace
  cases m.lookup key with
  | none => rfl
  | some e => cases force <;> rfl

/-! ## From the loop to the run -/

theorem finishRun_outcomes (env : Env) (mp : String) (w : World)
    (r : LoopState × List Outcome) : (finishRun env mp w r).outcomes = r.2 := by
  unfold finishRun
  split_ifs <;> rfl

theorem finishRun_manifest (env : Env) (mp : String) (w : World)
    (r : LoopState × List Outcome) : (finishRun env mp w r).manifest = r.1.manifest := by
  unfold finishRun
  split_ifs <;> rfl

theorem finishRun_fs (env : Env) (mp : String) (w : World)
    (r : LoopState × List Outcome) : (finishRun env mp w r).world.fs = r.1.fs := by
  unfold finishRun
  split_ifs <;> rfl

theorem finishRun_ok_iff (env : Env) (mp : String) (w : World)
    (r : LoopState × List Outcome) :
    (finishRun env mp w r).result = Result.ok
      ↔ Outcome.panicked ∉ r.2 ∧ env.createErr = false ∧ env.encodeErr = false := by
  unfold finishRun
  split_ifs <;> simp_all

theorem finishRun_ok_world (env : Env) (mp : String) (w : World)
    (r : LoopState × List Outcome) (h : (finishRun env mp w r).result = Result.ok) :
    (finishRun env mp w r).world.manifestFile = ManifestFile.holds r.1.manifest false
    ∧ (finishRun env mp w r).trace
        = r.1.trace ++ [Action.createFile mp] ++ [Action.encodeManifest] := by
  obtain ⟨h1, h2, h3⟩ := (finishRun_ok_iff env mp w r).1 h
  simp [finishRun, h1, h2, h3]

/-- The state the loop of `buildCmd` starts in. -/
theorem buildCmd_of_config (env : Env) (fl : Flags) (w : World) (tasks : List Task)
    (ht : playbookTasks env fl = some tasks) (hm : env.mkdirOutErr = false) :
    buildCmd env fl w
      = finishRun env (joinPath fl.outDir "build-manifest.json") w
          (runTasks env fl (splitTarget env.GOARCH fl.target).1
            (splitTarget env.GOARCH fl.target).2 0 tasks
            (LoopState.mk (loadManifest w.manifestFile) w.fs
              (startTrace fl w.manifestFile))) := by
  unfold playbookTasks at ht
  unfold buildCmd
  cases hr : env.readFile fl.playbookPath with
  | none => simp [hr] at ht
  | some d =>
    simp only [hr] at ht
    simp [ht, hm]

theorem buildCmd_reaches_loop (env : Env) (fl : Flags) (w : World)
    (h : ∀ msg, (buildCmd env fl w).result ≠ Result.error msg
      ∨ (msg ≠ "failed to read playbook" ∧ msg ≠ "failed to parse playbook"
        ∧ msg ≠ "failed to create out dir")) :
    ∃ tasks, playbookTasks env fl = some tasks ∧ env.mkdirOutErr = false := by
  unfold playbookTasks
  unfold buildCmd at h
  cases hr : env.readFile fl.playbookPath with
  | none =>
    simp only [hr] at h
    have := h "failed to read playbook"
    simp at this
  | some d =>
    simp only [hr] at h
    cases hy : env.yamlUnmarshal d with
    | none =>
      simp only [hy] at h
      have := h "failed to parse playbook"
      simp at this
    | some tasks =>
      simp only [hy] at h
      cases hm : env.mkdirOutErr with
      | true =>
        simp only [hm, if_true] at h
        have := h "failed to create out dir"
        simp at this
      | false => exact ⟨tasks, by simpa using hy, rfl⟩

theorem buildCmd_ok_reaches_loop (env : Env) (fl : Flags) (w : World)
    (h : (buildCmd env fl w).result = Result.ok) :
    ∃ tasks, playbookTasks env fl = some tasks ∧ env.mkdirOutErr = false :=
  buildCmd_reaches_loop env fl w (fun msg => Or.inl (by rw [h]; simp))

theorem runTasks_length (env : Env) (fl : Flags) (goos goarch : String) (ts : List Task) :
    ∀ (i : Nat) (s : LoopState),
      Outcome.panicked ∉ (runTasks env fl goos goarch i ts s).2 →
      (runTasks env fl goos goarch i ts s).2.length = ts.length := by
  induction ts with
  | nil => intro i s _; simp [runTasks]
  | cons t ts ih =>
    intro i s h
    rw [runTasks_cons] at h ⊢
    by_cases hp : (processTask env fl goos goarch i t s).2 = Outcome.panicked
    · rw [if_pos hp] at h
      simp at h
    · rw [if_neg hp] at h
      rw [if_neg hp]
      simp only [List.mem_cons, not_or] at h
      simp [ih (i + 1) _ h.2]

/-! ## Idempotence -/

theorem built_step_keeps_fresh (env : Env) (fl : Flags) (goos goarch : String) (i : Nat)
    (t : Task) (s : LoopState) (K : List String)
    (habs : isAbs fl.outDir = true)
    (hinj : ∀ a ∈ K, ∀ b ∈ K, joinPath fl.outDir a = joinPath fl.outDir b → a = b)
    (hK : taskKey goos goarch i t ∈ K)
    (hb : (processTask env fl goos goarch i t s).2 = Outcome.built)
    (hclean : ∀ c r, (env.calls i).goBuild = some (File.file c r) → r = none) :
    Fresh env.sha256hex false (processTask env fl goos goarch i t s).1.manifest
        (processTask env fl goos goarch i t s).1.fs (taskKey goos goarch i t)
        (joinPath fl.outDir (taskKey goos goarch i t))
    ∧ ∀ k ∈ K, Fresh env.sha256hex false s.manifest s.fs k (joinPath fl.outDir k) →
        Fresh env.sha256hex false (processTask env fl goos goarch i t s).1.manifest
          (processTask env fl goos goarch i t s).1.fs k (joinPath fl.outDir k) := by
  have hout := outputPath_of_abs (joinPath fl.outDir (taskID i t)) fl.outDir
    (taskKey goos goarch i t) habs
  have hcase := processTask_cases env fl goos goarch i t s
  generalize processTask env fl goos goarch i t s = r at hcase hb ⊢
  cases hcase with
  | hit hc => simp at hb
  | mkdirErr hc hm => simp at hb
  | buildErr hc hm hb1 => simp at hb
  | openErr f hc hm hb1 hf => simp at hb
  | panic f content readErr hc hm hb1 hf ha => simp at hb
  | built f content readErr m1 hc hm hb1 hf ha =>
    have hff : f = File.file content readErr := by
      simpa [fsAfterBuild, hout] using hf
    subst hff
    have hr := hclean content readErr hb1
    subst hr
    have hkey : Fresh env.sha256hex false m1
        (fsAfterBuild fl goos goarch i t s (File.file content none))
        (taskKey goos goarch i t) (joinPath fl.outDir (taskKey goos goarch i t)) := by
      refine ⟨rfl, newEntry env fl i t content none,
        GoMap.lookup_assign_same _ _ _ _ ha, content, hf, ?_⟩
      simp [newEntry, File.streamed]
    refine ⟨hkey, ?_⟩
    intro k hkK hk
    by_cases hkk : k = taskKey goos goarch i t
    · subst hkk
      exact hkey
    · obtain ⟨_, e, hl, c, hfk, hs⟩ := hk
      refine ⟨rfl, e, ?_, c, ?_, hs⟩
      · rw [GoMap.lookup_assign_other _ _ _ _ _ ha hkk]
        exact hl
      · have hp : joinPath fl.outDir k ≠ joinPath fl.outDir (taskKey goos goarch i t) :=
          fun h => hkk (hinj k hkK _ hK h)
        simp only [fsAfterBuild, hout, hp, if_false]
        exact hfk

theorem all_built_leaves_fresh (env : Env) (fl : Flags) (goos goarch : String)
    (K : List String) (habs : isAbs fl.outDir = true)
    (hinj : ∀ a ∈ K, ∀ b ∈ K, joinPath fl.outDir a = joinPath fl.outDir b → a = b)
    (ts : List Task) :
    ∀ (i : Nat) (s : LoopState),
      (∀ k ∈ keysFrom goos goarch i ts, k ∈ K) →
      (∀ o ∈ (runTasks env fl goos goarch i ts s).2, o = Outcome.built) →
      (∀ j, i ≤ j → j < i + ts.length →
        ∀ c r, (env.calls j).goBuild = some (File.file c r) → r = none) →
      (∀ k ∈ K, Fresh env.sha256hex false s.manifest s.fs k (joinPath fl.outDir k) →
        Fresh env.sha256hex false (runTasks env fl goos goarch i ts s).1.manifest
          (runTasks env fl goos goarch i ts s).1.fs k (joinPath fl.outDir k))
      ∧ (∀ k ∈ keysFrom goos goarch i ts,
        Fresh env.sha256hex false (runTasks env fl goos goarch i ts s).1.manifest
          (runTasks env fl goos goarch i ts s).1.fs k (joinPath fl.outDir k)) := by
  induction ts with
  | nil =>
    intro i s _ _ _
    simp [runTasks, keysFrom]
  | cons t ts ih =>
    intro i s hsub hall hclean
    rw [runTasks_cons] at hall ⊢
    by_cases hp : (processTask env fl goos goarch i t s).2 = Outcome.panicked
    · rw [if_pos hp] at hall
      have := hall Outcome.panicked (by simp)
      simp at this
    · rw [if_neg hp] at hall
      rw [if_neg hp]
      have hhead : (processTask env fl goos goarch i t s).2 = Outcome.built :=
        hall _ (by simp)
      have hrest : ∀ o ∈ (runTasks env fl goos goarch (i + 1) ts
          (processTask env fl goos goarch i t s).1).2, o = Outcome.built :=
        fun o ho => hall o (by simp [ho])
      have hK : taskKey goos goarch i t ∈ K := hsub _ (by simp [keysFrom])
      have hstep := built_step_keeps_fresh env fl goos goarch i t s K habs hinj hK hhead
        (hclean i (le_refl i) (by simp))
      have hih := ih (i + 1) (processTask env fl goos goarch i t s).1
        (fun k hk => hsub k (by simp [keysFrom, hk])) hrest
        (fun j h1 h2 => hclean j (by omega) (by simp only [List.length_cons]; omega))
      refine ⟨fun k hkK hk => hih.1 k hkK (hstep.2 k hkK hk), ?_⟩
      intro k hk
      simp only [keysFrom, List.mem_cons] at hk
      rcases hk with rfl | hk
      · exact hih.1 _ hK hstep.1
      · exact hih.2 k hk

theorem fresh_tasks_all_skipped (env : Env) (fl : Flags) (goos goarch : String)
    (hforce : fl.force = false) (ts : List Task) :
    ∀ (i : Nat) (s : LoopState),
      (∀ k ∈ keysFrom goos goarch i ts,
        Fresh env.sha256hex false s.manifest s.fs k (joinPath fl.outDir k)) →
      (runTasks env fl goos goarch i ts s).1.manifest = s.manifest
      ∧ (runTasks env fl goos goarch i ts s).1.fs = s.fs
      ∧ (runTasks env fl goos goarch i ts s).2 = List.replicate ts.length Outcome.skipped
      ∧ toolchainCalls (runTasks env fl goos goarch i ts s).1.trace
          = toolchainCalls s.trace := by
  induction ts with
  | nil =>
    intro i s _
    simp [runTasks]
  | cons t ts ih =>
    intro i s hfresh
    have hf := hfresh (taskKey goos goarch i t) (by simp [keysFrom])
    rw [← hforce] at hf
    have hc := (cacheHit_iff_fresh _ _ _ _ _ _).2 hf
    have hstep := processTask_hit env fl goos goarch i t s hc
    have hih := ih (i + 1) (processTask env fl goos goarch i t s).1 (by
      intro k hk
      rw [hstep]
      exact hfresh k (by simp [keysFrom, hk]))
    rw [runTasks_cons]
    have hp : ¬ (processTask env fl goos goarch i t s).2 = Outcome.panicked := by
      rw [hstep]; simp
    rw [if_neg hp]
    refine ⟨?_, ?_, ?_, ?_⟩
    · rw [hih.1, hstep]
    · rw [hih.2.1, hstep]
    · simp only [hih.2.2.1, List.length_cons, List.replicate_succ]
      rw [hstep]
    · rw [hih.2.2.2, hstep]
      simp [checkedTrace, toolchainCalls_append, toolchainCalls_cacheTrace, toolchainCalls]

theorem run_on_fresh_artifacts (env : Env) (fl : Flags) (w : World) (tasks : List Task)
    (m : GoMap) (ht : playbookTasks env fl = some tasks) (hm : env.mkdirOutErr = false)
    (hc : env.createErr = false) (he : env.encodeErr = false) (hforce : fl.force = false)
    (hmf : w.manifestFile = ManifestFile.holds m false)
    (hfresh : ∀ k ∈ keysFrom (splitTarget env.GOARCH fl.target).1
        (splitTarget env.GOARCH fl.target).2 0 tasks,
      Fresh env.sha256hex false m w.fs k (joinPath fl.outDir k)) :
    (buildCmd env fl w).result = Result.ok
    ∧ (buildCmd env fl w).outcomes = List.replicate tasks.length Outcome.skipped
    ∧ toolchainCalls (buildCmd env fl w).trace = 0
    ∧ (buildCmd env fl w).world.manifestFile = ManifestFile.holds m false
    ∧ (buildCmd env fl w).manifest = m := by
  rw [buildCmd_of_config env fl w tasks ht hm]
  have hskip := fresh_tasks_all_skipped env fl (splitTarget env.GOARCH fl.target).1
    (splitTarget env.GOARCH fl.target).2 hforce tasks 0
    (LoopState.mk (loadManifest w.manifestFile) w.fs (startTrace fl w.manifestFile))
    (by rw [hmf]; exact hfresh)
  generalize runTasks env fl (splitTarget env.GOARCH fl.target).1
    (splitTarget env.GOARCH fl.target).2 0 tasks
    (LoopState.mk (loadManifest w.manifestFile) w.fs (startTrace fl w.manifestFile)) = r2
    at hskip ⊢
  obtain ⟨hs1, hs2, hs3, hs4⟩ := hskip
  have hnp : Outcome.panicked ∉ r2.2 := by
    rw [hs3]
    intro hmem
    have := List.eq_of_mem_replicate hmem
    simp at this
  have hok2 : (finishRun env (joinPath fl.outDir "build-manifest.json") w r2).result
      = Result.ok :=
    (finishRun_ok_iff _ _ _ _).2 ⟨hnp, hc, he⟩
  have hw2 := finishRun_ok_world _ _ _ _ hok2
  refine ⟨hok2, ?_, ?_, ?_, ?_⟩
  · rw [finishRun_outcomes, hs3]
  · rw [hw2.2]
    simp only [toolchainCalls_append, hs4]
    simp [startTrace, loadTrace, toolchainCalls]
    cases w.manifestFile <;> simp [toolchainCalls]
  · rw [hw2.1, hs1, hmf]
    rfl
  · rw [finishRun_manifest, hs1, hmf]
    rfl

/-- Idempotence when the reads complete. With an absolute output directory
whose join is injective on the cache keys of the playbook: if a first run
ends with the manifest saved and every task Built, each artifact having
been read to its end when it was hashed, then a second run on what the
first run left, without the force flag and whatever its per-task calls
would return, skips every task, invokes the toolchain zero times, and saves
a manifest equal to the one the first run saved. -/
theorem second_run_skips_when_reads_complete (env : Env) (fl : Flags) (w : World)
    (calls2 : Nat → TaskCalls) (tasks : List Task)
    (ht : playbookTasks env fl = some tasks)
    (habs : isAbs fl.outDir = true)
    (hinj : ∀ a ∈ keysFrom (splitTarget env.GOARCH fl.target).1
        (splitTarget env.GOARCH fl.target).2 0 tasks,
      ∀ b ∈ keysFrom (splitTarget env.GOARCH fl.target).1
        (splitTarget env.GOARCH fl.target).2 0 tasks,
      joinPath fl.outDir a = joinPath fl.outDir b → a = b)
    (hok : (buildCmd env fl w).result = Result.ok)
    (hbuilt : ∀ o ∈ (buildCmd env fl w).outcomes, o = Outcome.built)
    (hclean : ∀ j, j < (buildCmd env fl w).outcomes.length →
      ∀ c r, (env.calls j).goBuild = some (File.file c r) → r = none) :
    (buildCmd { env with calls := calls2 } { fl with force := false }
        (buildCmd env fl w).world).result = Result.ok
    ∧ (buildCmd { env with calls := calls2 } { fl with force := false }
        (buildCmd env fl w).world).outcomes
        = List.replicate (buildCmd env fl w).outcomes.length Outcome.skipped
    ∧ toolchainCalls (buildCmd { env with calls := calls2 } { fl with force := false }
        (buildCmd env fl w).world).trace = 0
    ∧ (buildCmd { env with calls := calls2 } { fl with force := false }
        (buildCmd env fl w).world).world.manifestFile = (buildCmd env fl w).world.manifestFile
    ∧ (buildCmd { env with calls := calls2 } { fl with force := false }
        (buildCmd env fl w).world).manifest = (buildCmd env fl w).manifest := by
  obtain ⟨tasks1, ht1, hm⟩ := buildCmd_ok_reaches_loop env fl w hok
  have htt : tasks1 = tasks := by
    rw [ht] at ht1
    exact (Option.some.inj ht1).symm
  subst htt
  have e1 := buildCmd_of_config env fl w tasks1 ht hm
  have hok1 := hok
  rw [e1] at hok1 hbuilt hclean
  have hfin := (finishRun_ok_iff _ _ _ _).1 hok1
  have hw := finishRun_ok_world _ _ _ _ hok1
  rw [finishRun_outcomes] at hbuilt hclean
  have hlen := runTasks_length env fl (splitTarget env.GOARCH fl.target).1
    (splitTarget env.GOARCH fl.target).2 tasks1 0
    (LoopState.mk (loadManifest w.manifestFile) w.fs (startTrace fl w.manifestFile)) hfin.1
  have hinv := all_built_leaves_fresh env fl (splitTarget env.GOARCH fl.target).1
    (splitTarget env.GOARCH fl.target).2 _ habs hinj tasks1 0
    (LoopState.mk (loadManifest w.manifestFile) w.fs (startTrace fl w.manifestFile))
    (fun k hk => hk) hbuilt (fun j _ h2 => hclean j (by omega))
  have hlen1 : (buildCmd env fl w).outcomes.length = tasks1.length := by
    rw [e1, finishRun_outcomes]; exact hlen
  have hman1 : (buildCmd env fl w).manifest = (runTasks env fl
      (splitTarget env.GOARCH fl.target).1 (splitTarget env.GOARCH fl.target).2 0 tasks1
      (LoopState.mk (loadManifest w.manifestFile) w.fs
        (startTrace fl w.manifestFile))).1.manifest := by
    rw [e1, finishRun_manifest]
  have hmf1 : (buildCmd env fl w).world.manifestFile
      = ManifestFile.holds (buildCmd env fl w).manifest false := by
    rw [hman1, e1]; exact hw.1
  have hfs1 : (buildCmd env fl w).world.fs = (runTasks env fl
      (splitTarget env.GOARCH fl.target).1 (splitTarget env.GOARCH fl.target).2 0 tasks1
      (LoopState.mk (loadManifest w.manifestFile) w.fs
        (startTrace fl w.manifestFile))).1.fs := by
    rw [e1, finishRun_fs]
  have key := run_on_fresh_artifacts { env with calls := calls2 } { fl with force := false }
    (buildCmd env fl w).world tasks1 (buildCmd env fl w).manifest ht hm hfin.2.1 hfin.2.2 rfl
    hmf1 (by
      intro k hk
      rw [hman1, hfs1]
      exact hinv.2 k hk)
  rw [hlen1, hmf1]
  exact key

/-- The scenario of the spec with an absolute output directory: the first run
builds both tasks, the second run skips both. -/
theorem second_run_skips_when_reads_complete_example :
    (buildCmd (envOf twoTasks goodCalls) absFlags emptyWorld).outcomes
        = [Outcome.built, Outcome.built]
    ∧ (buildCmd { envOf twoTasks goodCalls with calls := badCalls }
        { absFlags with force := false }
        (buildCmd (envOf twoTasks goodCalls) absFlags emptyWorld).world).outcomes
        = [Outcome.skipped, Outcome.skipped]
    ∧ toolchainCalls (buildCmd { envOf twoTasks goodCalls with calls := badCalls }
        { absFlags with force := false }
        (buildCmd (envOf twoTasks goodCalls) absFlags emptyWorld).world).trace = 0 := by
  have hout : (buildCmd (envOf twoTasks goodCalls) absFlags emptyWorld).outcomes
      = [Outcome.built, Outcome.built] := by decide
  have h := second_run_skips_when_reads_complete (envOf twoTasks goodCalls) absFlags
    emptyWorld badCalls twoTasks rfl (by decide) (by decide) (by decide)
    (by rw [hout]; decide)
    (by
      intro j _ c r hj
      simp only [envOf, goodCalls, Option.some.injEq, File.file.injEq] at hj
      exact hj.2.symm)
  refine ⟨hout, ?_, h.2.2.1⟩
  rw [h.2.1, hout]
  rfl

/-- C2 fails on the code: the first run builds the one task and reports it
Built although the read of the new artifact failed part way (line 161
discards the error of `io.Copy`); nothing changes, and the second run,
without the force flag, finds the same read error in its cache check,
rebuilds the task and invokes the toolchain once. -/
theorem second_run_rebuilds_after_dropped_read_error :
    (buildCmd (envOf [taskA] truncatedReadCalls) absFlags emptyWorld).result = Result.ok
    ∧ (buildCmd (envOf [taskA] truncatedReadCalls) absFlags emptyWorld).outcomes
        = [Outcome.built]
    ∧ (buildCmd (envOf [taskA] truncatedReadCalls) absFlags
        (buildCmd (envOf [taskA] truncatedReadCalls) absFlags emptyWorld).world).outcomes
        = [Outcome.built]
    ∧ toolchainCalls (buildCmd (envOf [taskA] truncatedReadCalls) absFlags
        (buildCmd (envOf [taskA] truncatedReadCalls) absFlags emptyWorld).world).trace
        = 1 := by
  decide

/-! ## What one pass writes -/

/-- A task that ends Built has had the toolchain return without error and the
file at binPath open; the manifest then holds, under the task's key, the
digest of the bytes that were read from that file, the playbook path and the
task's module. -/
theorem built_entry (env : Env) (fl : Flags) (goos goarch : String) (i : Nat) (t : Task)
    (s : LoopState) (hb : (processTask env fl goos goarch i t s).2 = Outcome.built) :
    ∃ content readErr,
      (env.calls i).goBuild ≠ none
      ∧ (processTask env fl goos goarch i t s).1.fs
          (joinPath fl.outDir (taskKey goos goarch i t)) = File.file content readErr
      ∧ (processTask env fl goos goarch i t s).1.manifest.lookup (taskKey goos goarch i t)
          = some { Sha256 := env.sha256hex (File.streamed content readErr),
                   Source := fl.playbookPath, Module := t.Module,
                   BuiltAt := (env.calls i).now } := by
  have hcase := processTask_cases env fl goos goarch i t s
  generalize processTask env fl goos goarch i t s = r at hcase hb ⊢
  cases hcase with
  | hit hc => simp at hb
  | mkdirErr hc hm => simp at hb
  | buildErr hc hm hb1 => simp at hb
  | openErr f hc hm hb1 hf => simp at hb
  | panic f content readErr hc hm hb1 hf ha => simp at hb
  | built f content readErr m1 hc hm hb1 hf ha =>
    refine ⟨content, readErr, by simp [hb1], hf, ?_⟩
    exact GoMap.lookup_assign_same _ _ _ _ ha

/-- C3 fails on the code: when the read of the freshly built artifact fails
part way (line 161 discards the error of `io.Copy`), the task is still
reported Built and the manifest records the digest of the bytes read so far,
not of the artifact's full content. -/
theorem built_records_digest_of_partial_read :
    (buildCmd (envOf [taskA] truncatedReadCalls) { absFlags with force := true }
        emptyWorld).outcomes = [Outcome.built]
    ∧ (buildCmd (envOf [taskA] truncatedReadCalls) { absFlags with force := true }
        emptyWorld).world.fs "/srv/dist/0-file-a-linux-amd64"
        = File.file [1, 2, 3] (some 1)
    ∧ ((buildCmd (envOf [taskA] truncatedReadCalls) { absFlags with force := true }
        emptyWorld).manifest.lookup "0-file-a-linux-amd64").map manifestEntry.Sha256
        = some (toyHex [1])
    ∧ toyHex [1] ≠ toyHex [1, 2, 3] := by
  decide

/-- C4. If the toolchain fails for a task, then the in-memory manifest (and the
artifacts) after the task are the ones before it, so any prior entry under
the task's cacheKey is as it was, and the loop goes on with the next task
from there; when the task was a cache miss and its directory was made, the
toolchain was invoked once and the task ends as a failed build. -/
theorem toolchain_failure_keeps_manifest (env : Env) (fl : Flags) (goos goarch : String)
    (i : Nat) (t : Task) (ts : List Task) (s : LoopState)
    (hfail : (env.calls i).goBuild = none) :
    (processTask env fl goos goarch i t s).1.manifest = s.manifest
    ∧ (processTask env fl goos goarch i t s).1.fs = s.fs
    ∧ runTasks env fl goos goarch i (t :: ts) s
        = ((runTasks env fl goos goarch (i + 1) ts
              (processTask env fl goos goarch i t s).1).1,
            (processTask env fl goos goarch i t s).2
              :: (runTasks env fl goos goarch (i + 1) ts
                    (processTask env fl goos goarch i t s).1).2)
    ∧ (cacheHit env.sha256hex fl.force s.manifest s.fs (taskKey goos goarch i t)
          (joinPath fl.outDir (taskKey goos goarch i t)) = false →
        (env.calls i).mkdirErr = false →
        (processTask env fl goos goarch i t s).2 = Outcome.buildFailed
        ∧ toolchainCalls (processTask env fl goos goarch i t s).1.trace
            = toolchainCalls s.trace + 1) := by
  have hcase := processTask_cases env fl goos goarch i t s
  rw [runTasks_cons]
  generalize processTask env fl goos goarch i t s = r at hcase ⊢
  cases hcase with
  | hit hc => exact ⟨rfl, rfl, by simp, fun h => by simp [hc] at h⟩
  | mkdirErr hc hm => exact ⟨rfl, rfl, by simp, fun _ h => by simp [hm] at h⟩
  | buildErr hc hm hb1 =>
    refine ⟨rfl, rfl, by simp, fun _ _ => ⟨rfl, ?_⟩⟩
    simp [toolchainTrace, checkedTrace, toolchainCalls_append, toolchainCalls_cacheTrace,
      toolchainCalls]
  | openErr f hc hm hb1 hf => simp [hfail] at hb1
  | panic f content readErr hc hm hb1 hf ha => simp [hfail] at hb1
  | built f content readErr m1 hc hm hb1 hf ha => simp [hfail] at hb1

/-- Task a has a stale entry and the toolchain fails: the entry stays as it is. -/
theorem toolchain_failure_keeps_manifest_witness :
    (processTask (envOf twoTasks failedBuildCalls) linuxFlags "linux" "amd64" 0 taskA
        (stateWithA true)).2 = Outcome.buildFailed
    ∧ (processTask (envOf twoTasks failedBuildCalls) linuxFlags "linux" "amd64" 0 taskA
        (stateWithA true)).1.manifest = (stateWithA true).manifest :=
  have h := toolchain_failure_keeps_manifest (envOf twoTasks failedBuildCalls) linuxFlags
    "linux" "amd64" 0 taskA [] (stateWithA true) (by decide)
  ⟨(h.2.2.2 (by decide) (by decide)).1, h.1⟩

/-- Nothing in a pass depends on what the two `os.WriteFile` calls return. -/
theorem processTask_ignores_write_errors (env : Env) (fl : Flags) (goos goarch : String)
    (i : Nat) (t : Task) (s : LoopState) (calls2 : Nat → TaskCalls)
    (h1 : (calls2 i).mkdirErr = (env.calls i).mkdirErr)
    (h2 : (calls2 i).goBuild = (env.calls i).goBuild)
    (h3 : (calls2 i).now = (env.calls i).now) :
    processTask { env with calls := calls2 } fl goos goarch i t s
      = processTask env fl goos goarch i t s := by
  simp only [processTask, h1, h2, h3]

/-- A failed per-task `os.MkdirAll` ends the task with manifest and artifacts as they were. -/
theorem mkdir_failure_keeps_manifest (env : Env) (fl : Flags) (goos goarch : String)
    (i : Nat) (t : Task) (s : LoopState)
    (hmiss : cacheHit env.sha256hex fl.force s.manifest s.fs (taskKey goos goarch i t)
      (joinPath fl.outDir (taskKey goos goarch i t)) = false)
    (hmk : (env.calls i).mkdirErr = true) :
    (processTask env fl goos goarch i t s).2 = Outcome.mkdirFailed
    ∧ (processTask env fl goos goarch i t s).1.manifest = s.manifest
    ∧ (processTask env fl goos goarch i t s).1.fs = s.fs := by
  rw [processTask_mkdirErr env fl goos goarch i t s hmiss hmk]
  exact ⟨rfl, rfl, rfl⟩

/-- C5 fails on the code: both `os.WriteFile` calls of the build unit fail,
their errors are not looked at, the toolchain runs and succeeds, and the
task is reported Built with a manifest entry written under its cacheKey. -/
theorem failed_unit_write_still_updates_manifest :
    (failedWriteCalls 0).writeParamsErr = true
    ∧ (failedWriteCalls 0).writeMainErr = true
    ∧ (loadManifest emptyWorld.manifestFile).lookup "0-file-a-linux-amd64" = none
    ∧ (buildCmd (envOf [taskA] failedWriteCalls) absFlags emptyWorld).outcomes
        = [Outcome.built]
    ∧ (buildCmd (envOf [taskA] failedWriteCalls) absFlags emptyWorld).manifest.lookup
        "0-file-a-linux-amd64"
        = some { Sha256 := toyHex [1], Source := "playbook.yaml", Module := "file",
                 BuiltAt := "2024-01-01T00:00:00Z" } := by
  decide

/-! ## Entries are only added or overwritten -/

theorem processTask_frame (env : Env) (fl : Flags) (goos goarch : String) (i : Nat)
    (t : Task) (s : LoopState) (k : String) :
    ((s.manifest.lookup k).isSome = true →
        ((processTask env fl goos goarch i t s).1.manifest.lookup k).isSome = true)
    ∧ (((processTask env fl goos goarch i t s).2 = Outcome.built →
          k ≠ taskKey goos goarch i t) →
        (processTask env fl goos goarch i t s).1.manifest.lookup k = s.manifest.lookup k)
    ∧ ((processTask env fl goos goarch i t s).2 = Outcome.panicked →
        (processTask env fl goos goarch i t s).1.manifest = s.manifest) := by
  have hcase := processTask_cases env fl goos goarch i t s
  generalize processTask env fl goos goarch i t s = r at hcase ⊢
  cases hcase with
  | hit hc => exact ⟨id, fun _ => rfl, fun _ => rfl⟩
  | mkdirErr hc hm => exact ⟨id, fun _ => rfl, fun _ => rfl⟩
  | buildErr hc hm hb1 => exact ⟨id, fun _ => rfl, fun _ => rfl⟩
  | openErr f hc hm hb1 hf => exact ⟨id, fun _ => rfl, fun _ => rfl⟩
  | panic f content readErr hc hm hb1 hf ha => exact ⟨id, fun _ => rfl, fun _ => rfl⟩
  | built f content readErr m1 hc hm hb1 hf ha =>
    refine ⟨fun h => ?_, fun h => GoMap.lookup_assign_other _ _ _ _ _ ha (h rfl),
      fun h => by simp at h⟩
    by_cases hk : k = taskKey goos goarch i t
    · subst hk
      show (m1.lookup _).isSome = true
      rw [GoMap.lookup_assign_same _ _ _ _ ha]
      rfl
    · show (m1.lookup _).isSome = true
      rw [GoMap.lookup_assign_other _ _ _ _ _ ha hk]
      exact h

theorem runTasks_frame (env : Env) (fl : Flags) (goos goarch : String) (ts : List Task)
    (k : String) :
    ∀ (i : Nat) (s : LoopState),
      ((s.manifest.lookup k).isSome = true →
          ((runTasks env fl goos goarch i ts s).1.manifest.lookup k).isSome = true)
      ∧ (k ∉ builtKeys goos goarch i ts (runTasks env fl goos goarch i ts s).2 →
          (runTasks env fl goos goarch i ts s).1.manifest.lookup k = s.manifest.lookup k) := by
  induction ts with
  | nil => intro i s; simp [runTasks]
  | cons t ts ih =>
    intro i s
    have hstep := processTask_frame env fl goos goarch i t s k
    rw [runTasks_cons]
    by_cases hp : (processTask env fl goos goarch i t s).2 = Outcome.panicked
    · rw [if_pos hp]
      refine ⟨hstep.1, fun _ => ?_⟩
      rw [hstep.2.2 hp]
    · rw [if_neg hp]
      have hih := ih (i + 1) (processTask env fl goos goarch i t s).1
      refine ⟨fun h => hih.1 (hstep.1 h), fun hk => ?_⟩
      simp only [builtKeys] at hk
      by_cases hb : (processTask env fl goos goarch i t s).2 = Outcome.built
      · rw [if_pos hb] at hk
        simp only [List.mem_cons, not_or] at hk
        rw [hih.2 hk.2, hstep.2.1 (fun _ => hk.1)]
      · rw [if_neg hb] at hk
        rw [hih.2 hk, hstep.2.1 (fun h => absurd h hb)]

/-- C6. In a run that reaches the save step, every key of the manifest loaded
at the start is a key of the manifest that is saved, every key that is not
the cacheKey of a task built in this run has the entry (or the absence of
one) it had when loaded, and a successful save leaves exactly that manifest
in the file. -/
theorem saved_manifest_keeps_entries (env : Env) (fl : Flags) (w : World)
    (tasks : List Task) (k : String)
    (ht : playbookTasks env fl = some tasks)
    (hsave : Action.createFile (joinPath fl.outDir "build-manifest.json")
      ∈ (buildCmd env fl w).trace) :
    (((loadManifest w.manifestFile).lookup k).isSome = true →
        ((buildCmd env fl w).manifest.lookup k).isSome = true)
    ∧ (k ∉ builtKeys (splitTarget env.GOARCH fl.target).1 (splitTarget env.GOARCH fl.target).2
          0 tasks (buildCmd env fl w).outcomes →
        (buildCmd env fl w).manifest.lookup k = (loadManifest w.manifestFile).lookup k)
    ∧ ((buildCmd env fl w).result = Result.ok →
        (buildCmd env fl w).world.manifestFile
          = ManifestFile.holds (buildCmd env fl w).manifest false) := by
  have hm : env.mkdirOutErr = false := by
    cases hmk : env.mkdirOutErr with
    | false => rfl
    | true =>
      exfalso
      unfold playbookTasks at ht
      unfold buildCmd at hsave
      cases hr : env.readFile fl.playbookPath with
      | none => simp [hr] at ht
      | some d =>
        simp only [hr] at ht
        simp [hr, ht, hmk] at hsave
  rw [buildCmd_of_config env fl w tasks ht hm, finishRun_manifest, finishRun_outcomes]
  have hloop := runTasks_frame env fl (splitTarget env.GOARCH fl.target).1
    (splitTarget env.GOARCH fl.target).2 tasks k 0
    (LoopState.mk (loadManifest w.manifestFile) w.fs (startTrace fl w.manifestFile))
  exact ⟨hloop.1, hloop.2, fun h => (finishRun_ok_world _ _ _ _ h).1⟩

/-- The scenario of the spec: after a run on tasks a and b, task a is renamed
to a2; the next run builds a2, skips b, adds the entry of a2 and keeps the
entry of a. -/
theorem saved_manifest_keeps_entries_witness :
    (buildCmd (envOf renamedTasks goodCalls) absFlags
        (buildCmd (envOf twoTasks goodCalls) absFlags emptyWorld).world).outcomes
      = [Outcome.built, Outcome.skipped]
    ∧ ((buildCmd (envOf renamedTasks goodCalls) absFlags
        (buildCmd (envOf twoTasks goodCalls) absFlags emptyWorld).world).manifest.lookup
          "0-file-a2-linux-amd64").isSome = true
    ∧ (buildCmd (envOf renamedTasks goodCalls) absFlags
        (buildCmd (envOf twoTasks goodCalls) absFlags emptyWorld).world).manifest.lookup
          "0-file-a-linux-amd64"
        = (buildCmd (envOf twoTasks goodCalls) absFlags emptyWorld).manifest.lookup
          "0-file-a-linux-amd64"
    ∧ ((buildCmd (envOf twoTasks goodCalls) absFlags emptyWorld).manifest.lookup
          "0-file-a-linux-amd64").isSome = true :=
  have h := saved_manifest_keeps_entries (envOf renamedTasks goodCalls) absFlags
    (buildCmd (envOf twoTasks goodCalls) absFlags emptyWorld).world renamedTasks
    "0-file-a-linux-amd64" rfl (by decide)
  ⟨by decide, by decide, h.2.1 (by decide), by decide⟩

/-! ## Loading the manifest -/

theorem processTask_nonnil (env : Env) (fl : Flags) (goos goarch : String) (i : Nat)
    (t : Task) (s : LoopState) (hs : s.manifest.isSome = true) :
    (processTask env fl goos goarch i t s).2 ≠ Outcome.panicked
    ∧ (processTask env fl goos goarch i t s).1.manifest.isSome = true := by
  have hcase := processTask_cases env fl goos goarch i t s
  generalize processTask env fl goos goarch i t s = r at hcase ⊢
  cases hcase with
  | hit hc => exact ⟨by simp, hs⟩
  | mkdirErr hc hm => exact ⟨by simp, hs⟩
  | buildErr hc hm hb1 => exact ⟨by simp, hs⟩
  | openErr f hc hm hb1 hf => exact ⟨by simp, hs⟩
  | panic f content readErr hc hm hb1 hf ha =>
    cases hm1 : s.manifest with
    | none => simp [hm1] at hs
    | some l => simp [hm1, GoMap.assign] at ha
  | built f content readErr m1 hc hm hb1 hf ha =>
    exact ⟨by simp, (GoMap.assign_isSome _ _ _ _ ha).2⟩

theorem runTasks_nonnil (env : Env) (fl : Flags) (goos goarch : String) (ts : List Task) :
    ∀ (i : Nat) (s : LoopState), s.manifest.isSome = true →
      Outcome.panicked ∉ (runTasks env fl goos goarch i ts s).2 := by
  induction ts with
  | nil => intro i s _; simp [runTasks]
  | cons t ts ih =>
    intro i s hs
    have hstep := processTask_nonnil env fl goos goarch i t s hs
    rw [runTasks_cons, if_neg hstep.1]
    simp only [List.mem_cons, not_or]
    exact ⟨fun h => hstep.1 h.symm, ih (i + 1) _ hstep.2⟩

theorem processTask_keysBelow (env : Env) (fl : Flags) (goos goarch : String) (i : Nat)
    (t : Task) (s : LoopState) (hk : KeysBelow goos goarch i s.manifest) :
    (processTask env fl goos goarch i t s).2 ≠ Outcome.skipped
    ∧ KeysBelow goos goarch (i + 1) (processTask env fl goos goarch i t s).1.manifest := by
  have hmiss : s.manifest.lookup (taskKey goos goarch i t) = none := by
    cases hl : s.manifest.lookup (taskKey goos goarch i t) with
    | none => rfl
    | some e =>
      obtain ⟨j, u, hj, he⟩ := hk (taskKey goos goarch i t) (by rw [hl]; rfl)
      have := taskKey_position goos goarch i j t u he
      omega
  have hc : cacheHit env.sha256hex fl.force s.manifest s.fs (taskKey goos goarch i t)
      (joinPath fl.outDir (taskKey goos goarch i t)) = false := by
    simp [cacheHit, hmiss]
  have hup : KeysBelow goos goarch (i + 1) s.manifest := by
    intro k h
    obtain ⟨j, u, hj, he⟩ := hk k h
    exact ⟨j, u, by omega, he⟩
  have hcase := processTask_cases env fl goos goarch i t s
  generalize processTask env fl goos goarch i t s = r at hcase ⊢
  cases hcase with
  | hit hc1 => simp [hc] at hc1
  | mkdirErr hc1 hm => exact ⟨by simp, hup⟩
  | buildErr hc1 hm hb1 => exact ⟨by simp, hup⟩
  | openErr f hc1 hm hb1 hf => exact ⟨by simp, hup⟩
  | panic f content readErr hc1 hm hb1 hf ha => exact ⟨by simp, hup⟩
  | built f content readErr m1 hc1 hm hb1 hf ha =>
    refine ⟨by simp, ?_⟩
    intro k h
    by_cases hkk : k = taskKey goos goarch i t
    · exact ⟨i, t, by omega, hkk⟩
    · have h1 : (m1.lookup k).isSome = true := h
      rw [GoMap.lookup_assign_other _ _ _ _ _ ha hkk] at h1
      exact hup k h1

theorem runTasks_keysBelow (env : Env) (fl : Flags) (goos goarch : String) (ts : List Task) :
    ∀ (i : Nat) (s : LoopState), KeysBelow goos goarch i s.manifest →
      Outcome.skipped ∉ (runTasks env fl goos goarch i ts s).2 := by
  induction ts with
  | nil => intro i s _; simp [runTasks]
  | cons t ts ih =>
    intro i s hk
    have hstep := processTask_keysBelow env fl goos goarch i t s hk
    rw [runTasks_cons]
    by_cases hp : (processTask env fl goos goarch i t s).2 = Outcome.panicked
    · rw [if_pos hp]; simp
    · rw [if_neg hp]
      simp only [List.mem_cons, not_or]
      exact ⟨fun h => hstep.1 h.symm, ih (i + 1) _ hstep.2⟩

theorem finishRun_result (env : Env) (mp : String) (w : World)
    (r : LoopState × List Outcome) (h : Outcome.panicked ∉ r.2) :
    (finishRun env mp w r).result
      = if env.createErr then Result.error "write manifest"
        else if env.encodeErr then Result.error "encode manifest" else Result.ok := by
  unfold finishRun
  rw [if_neg h]
  split_ifs <;> rfl

/-- C7 fails as stated: the decoder reports an error on a manifest file in which
a value has the wrong type, but it has stored the entry of task a before
that; the run goes on with that entry, not with an empty manifest, and task
a is skipped, not rebuilt. -/
theorem rejected_manifest_entries_are_used :
    loadManifest mistypedManifest ≠ some []
    ∧ (buildCmd (envOf [taskA] goodCalls) linuxFlags
        { manifestFile := mistypedManifest, fs := fsWithA }).outcomes = [Outcome.skipped]
    ∧ toolchainCalls (buildCmd (envOf [taskA] goodCalls) linuxFlags
        { manifestFile := mistypedManifest, fs := fsWithA }).trace = 0 := by
  decide

/-- C7, amended. Loading the manifest never ends the run and the error the
decoder reports is never looked at: result, outcomes, manifest and calls of
a run are the same whether or not the decoder reported one. If the file
cannot be opened, or the decoder stored nothing in the map, the loop starts
with an empty manifest, no task is skipped, every task is processed, and
the run ends as the save step decides. -/
theorem manifest_load_is_best_effort (env : Env) (fl : Flags) (fs : FS) (tasks : List Task)
    (ht : playbookTasks env fl = some tasks) (hm : env.mkdirOutErr = false) :
    (∀ m, (buildCmd env fl { manifestFile := ManifestFile.holds m true, fs := fs }).result
          = (buildCmd env fl { manifestFile := ManifestFile.holds m false, fs := fs }).result
        ∧ (buildCmd env fl { manifestFile := ManifestFile.holds m true, fs := fs }).outcomes
          = (buildCmd env fl { manifestFile := ManifestFile.holds m false, fs := fs }).outcomes
        ∧ (buildCmd env fl { manifestFile := ManifestFile.holds m true, fs := fs }).manifest
          = (buildCmd env fl { manifestFile := ManifestFile.holds m false, fs := fs }).manifest
        ∧ (buildCmd env fl { manifestFile := ManifestFile.holds m true, fs := fs }).trace
          = (buildCmd env fl { manifestFile := ManifestFile.holds m false, fs := fs }).trace)
    ∧ (∀ mf, (mf = ManifestFile.unopenable ∨ ∃ err, mf = ManifestFile.holds (some []) err) →
        loadManifest mf = some []
        ∧ Outcome.skipped ∉ (buildCmd env fl { manifestFile := mf, fs := fs }).outcomes
        ∧ (buildCmd env fl { manifestFile := mf, fs := fs }).outcomes.length = tasks.length
        ∧ (buildCmd env fl { manifestFile := mf, fs := fs }).result
            = if env.createErr then Result.error "write manifest"
              else if env.encodeErr then Result.error "encode manifest" else Result.ok) := by
  constructor
  · intro m
    rw [buildCmd_of_config env fl _ tasks ht hm, buildCmd_of_config env fl _ tasks ht hm]
    simp only [loadManifest, startTrace, loadTrace]
    generalize runTasks env fl (splitTarget env.GOARCH fl.target).1
      (splitTarget env.GOARCH fl.target).2 0 tasks _ = r
    unfold finishRun
    split_ifs <;> exact ⟨rfl, rfl, rfl, rfl⟩
  · intro mf hmf
    have hload : loadManifest mf = some [] := by
      rcases hmf with rfl | ⟨err, rfl⟩ <;> rfl
    rw [buildCmd_of_config env fl _ tasks ht hm, finishRun_outcomes]
    simp only [hload]
    have hnp := runTasks_nonnil env fl (splitTarget env.GOARCH fl.target).1
      (splitTarget env.GOARCH fl.target).2 tasks 0
      (LoopState.mk (some []) fs (startTrace fl mf)) rfl
    have hns := runTasks_keysBelow env fl (splitTarget env.GOARCH fl.target).1
      (splitTarget env.GOARCH fl.target).2 tasks 0
      (LoopState.mk (some []) fs (startTrace fl mf))
      (fun k h => by simp [GoMap.lookup, Manifest.get] at h)
    exact ⟨trivial, hns, runTasks_length _ _ _ _ _ _ _ hnp, finishRun_result _ _ _ _ hnp⟩

/-- A truncated manifest file next to the artifact of task a: nothing is skipped. -/
theorem manifest_load_is_best_effort_witness :
    Outcome.skipped ∉ (buildCmd (envOf twoTasks goodCalls) linuxFlags
      { manifestFile := ManifestFile.holds (some []) true, fs := fsWithA }).outcomes
    ∧ (buildCmd (envOf twoTasks goodCalls) linuxFlags
      { manifestFile := ManifestFile.holds (some []) true, fs := fsWithA }).result
        = Result.ok :=
  have h := manifest_load_is_best_effort (envOf twoTasks goodCalls) linuxFlags fsWithA
    twoTasks rfl rfl
  have h2 := h.2 (ManifestFile.holds (some []) true) (Or.inr ⟨true, rfl⟩)
  ⟨h2.2.1, h2.2.2.2⟩

/-! ## How the run ends -/

theorem createCalls_append (a b : List Action) :
    createCalls (a ++ b) = createCalls a + createCalls b := by
  induction a with
  | nil => simp [createCalls]
  | cons x rest ih =>
    cases x <;> simp [createCalls, ih]
    omega

theorem createCalls_cacheTrace (force : Bool) (m : GoMap) (key binPath : String) :
    createCalls (cacheTrace force m key binPath) = 0 := by
  unfold cacheTrace
  cases m.lookup key with
  | none => rfl
  | some e => cases force <;> rfl

theorem processTask_createCalls (env : Env) (fl : Flags) (goos goarch : String) (i : Nat)
    (t : Task) (s : LoopState) :
    createCalls (processTask env fl goos goarch i t s).1.trace = createCalls s.trace := by
  have hcase := processTask_cases env fl goos goarch i t s
  generalize processTask env fl goos goarch i t s = r at hcase ⊢
  cases hcase <;>
    simp [toolchainTrace, checkedTrace, createCalls_append, createCalls_cacheTrace,
      createCalls]

theorem runTasks_createCalls (env : Env) (fl : Flags) (goos goarch : String)
    (ts : List Task) :
    ∀ (i : Nat) (s : LoopState),
      createCalls (runTasks env fl goos goarch i ts s).1.trace = createCalls s.trace := by
  induction ts with
  | nil => intro i s; simp [runTasks]
  | cons t ts ih =>
    intro i s
    rw [runTasks_cons]
    split_ifs
    · exact processTask_createCalls env fl goos goarch i t s
    · rw [ih, processTask_createCalls]

/-- When the map the decoder leaves is not nil, `buildCmd` returns an error
exactly when a configuration step or the save step fails, whatever happens
to the tasks; it never panics, and once the loop is reached every task is
processed and `os.Create` is called exactly once, after the loop. -/
theorem buildCmd_error_iff_of_nonnil (env : Env) (fl : Flags) (w : World)
    (hnn : (loadManifest w.manifestFile).isSome = true) :
    ((∃ msg, (buildCmd env fl w).result = Result.error msg)
        ↔ (playbookTasks env fl = none ∨ env.mkdirOutErr = true ∨ env.createErr = true
            ∨ env.encodeErr = true))
    ∧ (buildCmd env fl w).result ≠ Result.panic
    ∧ (∀ tasks, playbookTasks env fl = some tasks → env.mkdirOutErr = false →
        (buildCmd env fl w).outcomes.length = tasks.length
        ∧ createCalls (buildCmd env fl w).trace = 1
        ∧ ∃ loopTrace, (buildCmd env fl w).trace
            = loopTrace ++ Action.createFile (joinPath fl.outDir "build-manifest.json")
                :: (if env.createErr then [] else [Action.encodeManifest])) := by
  cases ht : playbookTasks env fl with
  | none =>
    have hres : ∃ msg, (buildCmd env fl w).result = Result.error msg := by
      unfold playbookTasks at ht
      unfold buildCmd
      cases hr : env.readFile fl.playbookPath with
      | none => exact ⟨_, rfl⟩
      | some d =>
        simp only [hr] at ht
        simp only [ht]
        exact ⟨_, rfl⟩
    obtain ⟨msg, hmsg⟩ := hres
    refine ⟨⟨fun _ => Or.inl rfl, fun _ => ⟨msg, hmsg⟩⟩, by rw [hmsg]; simp, ?_⟩
    intro tasks h
    simp at h
  | some tasks =>
    cases hm : env.mkdirOutErr with
    | true =>
      have hres : (buildCmd env fl w).result = Result.error "failed to create out dir" := by
        unfold playbookTasks at ht
        unfold buildCmd
        cases hr : env.readFile fl.playbookPath with
        | none => simp [hr] at ht
        | some d =>
          simp only [hr] at ht
          simp [ht, hm]
      refine ⟨⟨fun _ => Or.inr (Or.inl rfl), fun _ => ⟨_, hres⟩⟩, by rw [hres]; simp, ?_⟩
      intro tasks2 _ h
      simp at h
    | false =>
      rw [buildCmd_of_config env fl w tasks ht hm]
      have hnp := runTasks_nonnil env fl (splitTarget env.GOARCH fl.target).1
        (splitTarget env.GOARCH fl.target).2 tasks 0
        (LoopState.mk (loadManifest w.manifestFile) w.fs (startTrace fl w.manifestFile)) hnn
      have hlen := runTasks_length env fl (splitTarget env.GOARCH fl.target).1
        (splitTarget env.GOARCH fl.target).2 tasks 0
        (LoopState.mk (loadManifest w.manifestFile) w.fs (startTrace fl w.manifestFile)) hnp
      have hcc := runTasks_createCalls env fl (splitTarget env.GOARCH fl.target).1
        (splitTarget env.GOARCH fl.target).2 tasks 0
        (LoopState.mk (loadManifest w.manifestFile) w.fs (startTrace fl w.manifestFile))
      have hstart : createCalls (startTrace fl w.manifestFile) = 0 := by
        unfold startTrace loadTrace
        cases w.manifestFile <;> rfl
      generalize runTasks env fl (splitTarget env.GOARCH fl.target).1
        (splitTarget env.GOARCH fl.target).2 0 tasks
        (LoopState.mk (loadManifest w.manifestFile) w.fs (startTrace fl w.manifestFile)) = r
        at hnp hlen hcc ⊢
      rw [finishRun_result _ _ _ _ hnp, finishRun_outcomes]
      simp only [hstart] at hcc
      refine ⟨?_, ?_, ?_⟩
      · cases hc : env.createErr <;> cases he : env.encodeErr <;> simp
      · cases hc : env.createErr <;> cases he : env.encodeErr <;> simp
      · intro tasks2 h2 _
        simp only [Option.some.injEq] at h2
        subst h2
        refine ⟨hlen, ?_, r.1.trace, ?_⟩
        · unfold finishRun
          rw [if_neg hnp]
          split_ifs <;> simp [createCalls_append, createCalls, hcc]
        · unfold finishRun
          rw [if_neg hnp]
          split_ifs <;> simp

/-- C8 fails on the code: the manifest file holds `null`, so the decoder sets
the map to nil without an error; every configuration step succeeds and no
call fails, yet the assignment to the map for the first built task panics:
the process ends with a non-zero status, `os.Create` is never called and
the manifest is not persisted. -/
theorem null_manifest_panics_on_first_build :
    playbookTasks (envOf twoTasks goodCalls) absFlags = some twoTasks
    ∧ (envOf twoTasks goodCalls).mkdirOutErr = false
    ∧ (envOf twoTasks goodCalls).createErr = false
    ∧ (envOf twoTasks goodCalls).encodeErr = false
    ∧ (buildCmd (envOf twoTasks goodCalls) absFlags
        { manifestFile := nullManifest, fs := emptyWorld.fs }).result = Result.panic
    ∧ (buildCmd (envOf twoTasks goodCalls) absFlags
        { manifestFile := nullManifest, fs := emptyWorld.fs }).outcomes = [Outcome.panicked]
    ∧ createCalls (buildCmd (envOf twoTasks goodCalls) absFlags
        { manifestFile := nullManifest, fs := emptyWorld.fs }).trace = 0
    ∧ (buildCmd (envOf twoTasks goodCalls) absFlags
        { manifestFile := nullManifest, fs := emptyWorld.fs }).world.manifestFile
        = nullManifest := by
  decide

/-! ## No two tasks of a run share an identity -/

theorem idsFrom_position (ts : List Task) :
    ∀ (i : Nat), ∀ k ∈ idsFrom i ts, ∃ j u, i ≤ j ∧ k = taskID j u := by
  induction ts with
  | nil => intro i k hk; simp [idsFrom] at hk
  | cons t ts ih =>
    intro i k hk
    simp only [idsFrom, List.mem_cons] at hk
    rcases hk with rfl | hk
    · exact ⟨i, t, le_refl i, rfl⟩
    · obtain ⟨j, u, hj, he⟩ := ih (i + 1) k hk
      exact ⟨j, u, by omega, he⟩

theorem idsFrom_nodup (ts : List Task) : ∀ (i : Nat), (idsFrom i ts).Nodup := by
  induction ts with
  | nil => intro i; simp [idsFrom]
  | cons t ts ih =>
    intro i
    simp only [idsFrom, List.nodup_cons]
    refine ⟨fun hmem => ?_, ih (i + 1)⟩
    obtain ⟨j, u, hj, he⟩ := idsFrom_position ts (i + 1) _ hmem
    have := taskID_position i j t u he
    omega

theorem keysFrom_eq_map (goos goarch : String) (ts : List Task) :
    ∀ (i : Nat), keysFrom goos goarch i ts
      = (idsFrom i ts).map (fun id => cacheKey id goos goarch) := by
  induction ts with
  | nil => intro i; rfl
  | cons t ts ih =>
    intro i
    simp only [keysFrom, idsFrom, List.map_cons, ih (i + 1)]
    rfl

theorem keysFrom_nodup (goos goarch : String) (ts : List Task) (i : Nat) :
    (keysFrom goos goarch i ts).Nodup := by
  rw [keysFrom_eq_map]
  exact (idsFrom_nodup ts i).map (fun a b h => cacheKey_id_inj a b goos goarch h)

/-- C11. For two distinct positions the slugs of "{i}-{m}-{n}" and
"{j}-{m2}-{n2}" differ, whatever the modules and names are: a taskID is the
decimal digits of its position followed by nothing or by a rest that starts
with '-'. Hence tasks at distinct positions have distinct cacheKeys for one
target, and the taskIDs and the cacheKeys of the tasks of one run are
pairwise distinct. -/
theorem distinct_positions_distinct_identities (i j : Nat) (m n m2 n2 : String)
    (goos goarch : String) (ts : List Task) :
    (i ≠ j → slugify (toString i ++ "-" ++ m ++ "-" ++ n)
        ≠ slugify (toString j ++ "-" ++ m2 ++ "-" ++ n2))
    ∧ (∃ rest, (slugify (toString i ++ "-" ++ m ++ "-" ++ n)).data
          = (toString i).data ++ rest
        ∧ (rest = [] ∨ rest.head? = some (Char.ofNat 45)))
    ∧ (i ≠ j → cacheKey (slugify (toString i ++ "-" ++ m ++ "-" ++ n)) goos goarch
        ≠ cacheKey (slugify (toString j ++ "-" ++ m2 ++ "-" ++ n2)) goos goarch)
    ∧ (idsFrom 0 ts).Nodup
    ∧ (keysFrom goos goarch 0 ts).Nodup := by
  have hpos : i ≠ j → slugify (toString i ++ "-" ++ m ++ "-" ++ n)
      ≠ slugify (toString j ++ "-" ++ m2 ++ "-" ++ n2) := by
    intro hij e
    exact hij (taskID_position i j { Name := n, Module := m, Params := [] }
      { Name := n2, Module := m2, Params := [] } e)
  refine ⟨hpos, ?_, fun hij e => hpos hij (cacheKey_id_inj _ _ _ _ e),
    idsFrom_nodup ts 0, keysFrom_nodup goos goarch ts 0⟩
  have hdash : ("-" : String).data = [Char.ofNat 45] := rfl
  obtain ⟨hne, hdig, _⟩ := toString_digits i
  obtain ⟨T, hT, hshape⟩ := slugifyRunes_digits (toString i).data
    (m.data ++ Char.ofNat 45 :: n.data) hne hdig
  refine ⟨T, ?_, hshape⟩
  rw [← hT]
  simp [slugify, String.data_append, hdash]

/-- Positions 1 and 10 with modules chosen so that the formatted strings
"1-0-x" and "10--x" look alike: the slugs "1-0-x" and "10-x" differ. -/
theorem distinct_positions_distinct_identities_witness :
    slugify (toString 1 ++ "-" ++ "0" ++ "-" ++ "x")
      ≠ slugify (toString 10 ++ "-" ++ "" ++ "-" ++ "x")
    ∧ slugify (toString 1 ++ "-" ++ "0" ++ "-" ++ "x") = "1-0-x"
    ∧ slugify (toString 10 ++ "-" ++ "" ++ "-" ++ "x") = "10-x"
    ∧ (keysFrom "linux" "amd64" 0 twoTasks).Nodup :=
  have h := distinct_positions_distinct_identities 1 10 "0" "x" "" "x" "linux" "amd64"
    twoTasks
  ⟨h.1 (by decide), by decide, by decide, h.2.2.2.2⟩

end Plumbops
